import Mathlib

/-!
# UniShell execution core — shallow embedding and verification

This file embeds the execution core of the UniShell command-line shell
(`src/runner.c`, `src/wait.c`, `src/signal.c`) as executable Lean
definitions and settles a list of claims about it.

Modelling conventions:
* C `int`/`long`/`pid_t` values are modelled as `Int`; `size_t` as `Nat`.
* Kernel state touched by the redirection engine (the file-descriptor
  table) is modelled explicitly as an association list from descriptor
  numbers to abstract open-file tokens.  `open`, `dup`, `dup2` and
  `close` act on that table; `open` failure is decided by an environment
  oracle, `dup`/`dup2`/`close` fail exactly when POSIX says they must
  (bad / not-open descriptor).
* External collaborators (job table, builtin registry, `fork`, `waitpid`,
  `tcsetpgrp`, `kill`) are modelled by explicit environment records whose
  fields decide the collaborator's answers; the embedded control flow of
  the C functions is reproduced branch by branch.
* Functions whose C loop is driven by an unbounded stream of kernel
  events (the wait loops) consume an explicit event list and return
  `none` when the list is exhausted (the C loop would still be running).
-/

namespace UniShell

/-! ## Data model (parser AST, §3 of the spec; `parser.h` collaborators) -/

/-- Control operator of a command: `;` (foreground), `&` (background),
`|` (pipeline).  `runner.c` decodes these as `is_fg`, `is_bg`, `is_pl`. -/
inductive CtrlOp
  | semi
  | amp
  | pipe
deriving DecidableEq, Repr

/-- I/O redirection operators, `enum io_operator` of the parser. -/
inductive IoOp
  | opLess       -- <
  | opGreat      -- >
  | opDgreat     -- >>
  | opLessand    -- <&
  | opGreatand   -- >&
  | opLessgreat  -- <>
  | opClobber    -- >|
deriving DecidableEq, Repr

/-- One I/O redirection: operator, target descriptor number `io_number`,
and the filename-or-fd-number operand (`struct io_redir`). -/
structure IoRedir where
  io_op : IoOp
  io_number : Int
  filename : String
deriving DecidableEq, Repr

/-- One command of a command list (`struct command`).  Words and
assignments are carried only as data; expansion is an external
collaborator and is modelled as the identity.  `isBuiltin` records the
answer of the builtin-registry collaborator `get_builtin(cmd)`
(true iff a builtin function is resolved for the command). -/
structure Command where
  words : List String
  assignments : List (String × String)
  ioRedirs : List IoRedir
  ctrlOp : CtrlOp
  isBuiltin : Bool
deriving DecidableEq, Repr

/-! ## `strtol` model (base 10)

`do_io_redirects` and `do_builtin_io_redirects` both use the idiom
`long src = strtol(r->filename, &end, 10);` followed by the test
`*(r->filename) && !*end && src <= INT_MAX`.  We model `strtol` base 10
on the operand's character list: skip leading whitespace, read an
optional sign, read the longest digit run, clamp to the `long` range;
when no digits are read there is no conversion and `end` is reset to the
start of the string (so `!*end` then holds only for the empty string). -/

def LONG_MAX : Int := 2 ^ 63 - 1

def LONG_MIN : Int := -(2 ^ 63)

def INT_MAX : Int := 2 ^ 31 - 1

/-- The whitespace characters `isspace(3)` accepts in the C locale. -/
def isSpaceC (c : Char) : Bool :=
  c = ' ' || c = '\t' || c = '\n' || c = '\r' || c = '\x0b' || c = '\x0c'

/-- Numeric value of a digit run (most significant first). -/
def digitsToNat (l : List Char) : Nat :=
  l.foldl (fun a c => a * 10 + (c.toNat - 48)) 0

/-- Clamp a mathematical integer into the `long` range, as `strtol`
does on overflow. -/
def clampLong (v : Int) : Int :=
  if v > LONG_MAX then LONG_MAX else if v < LONG_MIN then LONG_MIN else v

def INT_MIN : Int := -(2 ^ 31)

/-- The C conversion of a `long` value to `int` at a cast or call
boundary: two's-complement wrap into the `int` range (the modular
semantics gcc and clang define for out-of-range conversions).  On
values already in the `int` range it is the identity. -/
def toCInt (v : Int) : Int := (v - INT_MIN) % 2 ^ 32 + INT_MIN

/-- Model of `strtol(s, &end, 10)`: returns the (clamped) value and the suffix of
the string that `end` points at.  On "no conversion" the value is `0`
and `end` points back at the whole input. -/
def strtol10 (s : List Char) : Int × List Char :=
  let s1 := s.dropWhile isSpaceC
  let neg : Bool :=
    match s1 with
    | [] => false
    | c :: _ => c = '-'
  let sgn : Bool :=
    match s1 with
    | [] => false
    | c :: _ => c = '-' || c = '+'
  let s2 := if sgn then s1.tail else s1
  let digs := s2.takeWhile Char.isDigit
  let rest := s2.dropWhile Char.isDigit
  if digs = [] then (0, s)
  else
    let v : Int := if neg then -(digitsToNat digs : Int) else (digitsToNat digs : Int)
    (clampLong v, rest)

/-- The combined test `*(r->filename) && !*end && src <= INT_MAX` used by
both redirection entry points to decide the duplicate-fd branch. -/
def strtolFullLeIntMax (s : String) : Bool :=
  decide (s.data ≠ []) && decide ((strtol10 s.data).2 = []) &&
    decide ((strtol10 s.data).1 ≤ INT_MAX)

/-! ## `get_io_flags` (runner.c)

Open flags, with the numeric values of the Linux `fcntl.h` constants:
`O_RDONLY = 0`, `O_WRONLY = 1`, `O_RDWR = 2`, `O_CREAT = 64`,
`O_EXCL = 128`, `O_TRUNC = 512`, `O_APPEND = 1024`. -/

def O_RDONLY : Nat := 0
def O_WRONLY : Nat := 1
def O_RDWR : Nat := 2
def O_CREAT : Nat := 64
def O_EXCL : Nat := 128
def O_TRUNC : Nat := 512
def O_APPEND : Nat := 1024

/-- Model of `get_io_flags` from `runner.c`: maps a redirection operator to the
`open(2)` flags used for the file-open path. -/
def get_io_flags (io_op : IoOp) : Nat :=
  match io_op with
  | .opLessand => O_RDONLY
  | .opLess => O_RDONLY
  | .opGreatand => O_WRONLY ||| O_CREAT ||| O_EXCL
  | .opGreat => O_WRONLY ||| O_CREAT ||| O_EXCL
  | .opDgreat => O_WRONLY ||| O_CREAT ||| O_APPEND
  | .opLessgreat => O_RDWR ||| O_CREAT
  | .opClobber => O_WRONLY ||| O_CREAT ||| O_TRUNC

/-! ## File-descriptor table kernel model -/

/-- The kernel's per-process descriptor table: an association list from
descriptor numbers to abstract open-file tokens, plus a counter used to
mint a fresh token for each successful `open`. -/
structure FdTable where
  entries : List (Int × Nat)
  next : Nat
deriving DecidableEq, Repr

/-- Look up the open file under a descriptor. -/
def fdLookup (t : FdTable) (fd : Int) : Option Nat :=
  (t.entries.find? (fun e => e.1 = fd)).map (fun e => e.2)

/-- Drop a descriptor from the table (`close`; no-op when absent). -/
def fdRemove (t : FdTable) (fd : Int) : FdTable :=
  { t with entries := t.entries.filter (fun e => e.1 ≠ fd) }

/-- Point a descriptor at an open file, replacing any previous entry. -/
def fdSet (t : FdTable) (fd : Int) (f : Nat) : FdTable :=
  { t with entries := (fd, f) :: (t.entries.filter (fun e => e.1 ≠ fd)) }

/-- POSIX allocates the lowest unused descriptor number.  At least one
number in `0 .. entries.length` is unused; if the search were ever to
fail the fallback `entries.length + 3` keeps the result out of the
standard-stream range (the claims never depend on the fallback). -/
def allocFd (t : FdTable) : Int :=
  match (List.range (t.entries.length + 1)).find?
      (fun n => (fdLookup t (Int.ofNat n)).isNone) with
  | some n => Int.ofNat n
  | none => Int.ofNat (t.entries.length + 3)

/-- Model of `close(fd)`: fails (returns `none`) iff `fd` is not open. -/
def closeF (t : FdTable) (fd : Int) : Option FdTable :=
  match fdLookup t fd with
  | none => none
  | some _ => some (fdRemove t fd)

/-- Model of `dup2(src, dst)`: fails iff `src` is not open or `dst` is not a
valid descriptor number; otherwise `dst` silently replaces whatever it
previously denoted. -/
def dup2F (t : FdTable) (src dst : Int) : Option FdTable :=
  if dst < 0 then none
  else
    match fdLookup t src with
    | none => none
    | some f => some (fdSet t dst f)

/-- Model of `dup(src)`: fails iff `src` is not open; otherwise returns the
lowest free descriptor now denoting the same open file. -/
def dupF (t : FdTable) (src : Int) : Option (Int × FdTable) :=
  match fdLookup t src with
  | none => none
  | some f =>
    let fd := allocFd t
    some (fd, fdSet t fd f)

/-- Environment of the redirection engine: decides which `open(2)` calls
fail (the only open-failure determinant the claims need is the name). -/
structure RedirEnv where
  openFails : String → Bool

/-- Model of `open(filename, flags, 0777)`: on success the lowest free descriptor
denotes a fresh open-file token. -/
def openF (env : RedirEnv) (t : FdTable) (name : String) : Option (Int × FdTable) :=
  if env.openFails name then none
  else
    let fd := allocFd t
    some (fd, { entries := (fd, t.next) :: (t.entries.filter (fun e => e.1 ≠ fd)),
                next := t.next + 1 })

/-- Model of `move_fd(src, dst)` from `runner.c`: no-op when `src = dst`,
otherwise `dup2(src, dst)` then `close(src)`; fails when either call
fails (the `close` cannot fail here because `src` was just looked up). -/
def move_fd (t : FdTable) (src dst : Int) : Option FdTable :=
  if src = dst then some t
  else
    match dup2F t src dst with
    | none => none
    | some t1 =>
      match closeF t1 src with
      | none => none
      | some t2 => some t2

/-! ## `do_io_redirects` (runner.c) — external-command path

Applied in forked children.  Each redirection is applied in sequence;
any failure jumps to the `err:` label placed after the loop's `return`,
so a failure abandons the remaining redirections and returns `-1`. -/

/-- The `file_open` branch of the external path: open the file with the
operator's flags (mode `0777`) and `move_fd` the result onto the target
descriptor. -/
def extFileOpen (env : RedirEnv) (t : FdTable) (r : IoRedir) : Option FdTable :=
  match openF env t r.filename with
  | none => none
  | some (fd, t1) => move_fd t1 fd r.io_number

/-- Apply one redirection of the external path; `none` is the `goto err`
outcome.  The accepted `long` operand is passed to `dup2` through the
explicit `(int)src` downcast of `dup2((int)src, r->io_number)`, so a
value below `INT_MIN` wraps into the `int` range before `dup2` sees
it. -/
def extRedirStep (env : RedirEnv) (t : FdTable) (r : IoRedir) : Option FdTable :=
  if r.io_op = .opGreatand ∨ r.io_op = .opLessand then
    if r.filename = "-" then
      closeF t r.io_number
    else
      if strtolFullLeIntMax r.filename then
        dup2F t (toCInt (strtol10 r.filename.data).1) r.io_number
      else
        -- `goto file_open`: recover by opening the operand as a file
        extFileOpen env t r
  else
    extFileOpen env t r

/-- Model of `do_io_redirects`: returns the C function's status together with the
final descriptor table.  The `err:` label lies outside the loop, so the
first failing redirection ends the whole sequence. -/
def do_io_redirects (env : RedirEnv) : List IoRedir → FdTable → Int × FdTable
  | [], t => (0, t)
  | r :: rest, t =>
    match extRedirStep env t r with
    | none => (-1, t)
    | some t1 => do_io_redirects env rest t1

/-! ## `do_builtin_io_redirects` (runner.c) — builtin virtual path

Builtins run inside the shell process, so redirections are recorded in a
singly linked list of `struct builtin_redir` records (pseudo-descriptor
to real descriptor) instead of touching descriptors 0/1/2.  The C `err:`
label sits inside the loop body (`if (0) { err: status = -1; }`), so a
failing redirection records the failure but the loop continues with the
next redirection. -/

/-- One virtual redirection record, `struct builtin_redir`. -/
structure BuiltinRedir where
  pseudofd : Int
  realfd : Int
deriving DecidableEq, Repr

/-- State threaded through `do_builtin_io_redirects`: the kernel table,
the record list, and the C function's `status` variable. -/
structure BRState where
  t : FdTable
  recs : List BuiltinRedir
  status : Int
deriving DecidableEq, Repr

/-- Handling of `[n]>&-` / `[n]<&-` on the record list: walk for a record whose
`pseudofd` is `n`; when found, `close` its `realfd` (result ignored by
the C code) and set its `pseudofd` to `-1`, then stop.  `none` means no
record matched (the caller then allocates a fresh record). -/
def closeRec (t : FdTable) (n : Int) : List BuiltinRedir → Option (FdTable × List BuiltinRedir)
  | [] => none
  | rec :: rest =>
    if rec.pseudofd = n then
      some (fdRemove t rec.realfd, { rec with pseudofd := -1 } :: rest)
    else
      match closeRec t n rest with
      | none => none
      | some (t1, rest1) => some (t1, rec :: rest1)

/-- The interleaved resolution loop of the duplicate-fd branch: scan the
record list once; seeing a record whose `realfd` equals the current
source is `EBADF` (`none`); a record whose `pseudofd` equals the current
source redirects the source to that record's `realfd`, and the scan
continues with the new source. -/
def resolveSrc : List BuiltinRedir → Int → Option Int
  | [], src => some src
  | rec :: rest, src =>
    if rec.realfd = src then none
    else resolveSrc rest (if rec.pseudofd = src then rec.realfd else src)

/-- Outcome of trying to duplicate onto an existing record. -/
inductive DupRes
  | dupOk (t : FdTable)
  | dupErr
  | dupNone
deriving Repr

/-- Walk the record list for `pseudofd = n`; when found, `dup2` the
source onto the record's `realfd` (a failure is the C `goto err`), and
stop.  `dupNone` means no record matched. -/
def dupExisting (t : FdTable) (src n : Int) : List BuiltinRedir → DupRes
  | [] => .dupNone
  | rec :: rest =>
    if rec.pseudofd = n then
      match dup2F t src rec.realfd with
      | some t1 => .dupOk t1
      | none => .dupErr
    else dupExisting t src n rest

/-- Outcome of moving a fresh descriptor onto an existing record. -/
inductive MoveRes
  | mvOk (t : FdTable)
  | mvErr (t : FdTable)
  | mvNone
deriving Repr

/-- Walk the record list for `pseudofd = n`; when found, `move_fd` the
just-opened descriptor onto the record's `realfd` and stop.  On failure
the opened descriptor is left behind in the table (the C code jumps to
`err` without closing it). -/
def moveExisting (t : FdTable) (fd n : Int) : List BuiltinRedir → MoveRes
  | [] => .mvNone
  | rec :: rest =>
    if rec.pseudofd = n then
      match move_fd t fd rec.realfd with
      | some t1 => .mvOk t1
      | none => .mvErr t
    else moveExisting t fd n rest

/-- The `file_open` branch of the builtin path: open the file, then
update the matching record in place, or allocate a record pointing the
pseudo-descriptor at the fresh descriptor. -/
def fileOpenBuiltin (env : RedirEnv) (st : BRState) (r : IoRedir) : BRState :=
  match openF env st.t r.filename with
  | none => { st with status := -1 }
  | some (fd, t1) =>
    match moveExisting t1 fd r.io_number st.recs with
    | .mvOk t2 => { st with t := t2 }
    | .mvErr t2 => { st with t := t2, status := -1 }
    | .mvNone => { st with t := t1, recs := ⟨r.io_number, fd⟩ :: st.recs }

/-- One iteration of the `do_builtin_io_redirects` loop.  Memory
allocation for new records is assumed to succeed (the `malloc`-failure
`goto err` is not modelled). -/
def builtinRedirStep (env : RedirEnv) (st : BRState) (r : IoRedir) : BRState :=
  if r.io_op = .opGreatand ∨ r.io_op = .opLessand then
    if r.filename = "-" then
      match closeRec st.t r.io_number st.recs with
      | some (t1, recs1) => { st with t := t1, recs := recs1 }
      | none => { st with recs := ⟨r.io_number, -1⟩ :: st.recs }
    else
      if strtolFullLeIntMax r.filename then
        -- the resolution loop compares the full `long` value (the
        -- `int` fields are promoted to `long`); the resolved value is
        -- implicitly converted to `int` at the dup2/dup call boundary
        match resolveSrc st.recs (strtol10 r.filename.data).1 with
        | none => { st with status := -1 }  -- EBADF
        | some src =>
          match dupExisting st.t (toCInt src) r.io_number st.recs with
          | .dupOk t1 => { st with t := t1 }
          | .dupErr => { st with status := -1 }
          | .dupNone =>
            -- fresh record; a `dup` failure is ignored and stores -1
            match dupF st.t (toCInt src) with
            | some (fd, t1) => { st with t := t1, recs := ⟨r.io_number, fd⟩ :: st.recs }
            | none => { st with recs := ⟨r.io_number, -1⟩ :: st.recs }
      else
        fileOpenBuiltin env st r
  else
    fileOpenBuiltin env st r

/-- Model of `do_builtin_io_redirects`: a left fold of the step over the
redirection list — the loop always visits every redirection, error or
not, because `err:` only sets `status = -1` inside the loop body. -/
def do_builtin_io_redirects (env : RedirEnv) (rs : List IoRedir) (st : BRState) : BRState :=
  rs.foldl (builtinRedirStep env) st

/-! ## Builtin invocation (runner.c, the `is_builtin` arm of
`run_command_list`)

Seeds the record list with the pipeline's upstream read end as
pseudo-descriptor 0 and the downstream write end as pseudo-descriptor 1,
applies the command's redirections (return value ignored by the C code),
invokes the builtin, then unconditionally closes every record's real
descriptor and frees the list. -/

/-- The cleanup loop after a builtin returns: `close` every record's
`realfd` (failures ignored) and free the record. -/
def cleanupRecs (t : FdTable) : List BuiltinRedir → FdTable
  | [] => t
  | rec :: rest => cleanupRecs (fdRemove t rec.realfd) rest

/-- Result of one builtin invocation: final descriptor table, the record
list as it stood when cleanup walked (and freed) it, and the value
stored into `params.status` (`127` on builtin failure, `0` on success). -/
structure BuiltinOut where
  t : FdTable
  freed : List BuiltinRedir
  pstatus : Int
deriving Repr

/-- Seed the record list: the pipeline's upstream read end becomes
pseudo-descriptor 0, the downstream write end pseudo-descriptor 1 (the
downstream record is pushed second, so it heads the list). -/
def seedRecs (upstream downstream : Option Int) : List BuiltinRedir :=
  match downstream, upstream with
  | some d, some u => [⟨1, d⟩, ⟨0, u⟩]
  | some d, none => [⟨1, d⟩]
  | none, some u => [⟨0, u⟩]
  | none, none => []

/-- The builtin arm of `run_command_list` (seed, redirect, invoke,
cleanup).  `builtinResult` is the external builtin function's return
value; the builtin consults the record list for I/O and does not touch
the shell's descriptor table. -/
def run_builtin (env : RedirEnv) (cmd : Command) (upstream downstream : Option Int)
    (builtinResult : Int) (t0 : FdTable) : BuiltinOut :=
  let st := do_builtin_io_redirects env cmd.ioRedirs ⟨t0, seedRecs upstream downstream, 0⟩
  ⟨cleanupRecs st.t st.recs, st.recs, if builtinResult ≠ 0 then 127 else 0⟩

/-! ## Wait status and the foreground wait (`wait.c`, `wait_on_fg_pgid`)

A raw `waitpid` status is modelled in decoded form: the `WIFEXITED` /
`WIFSIGNALED` / `WIFSTOPPED` discriminators of one status value. -/

/-- A decoded `waitpid` status word. -/
inductive WStatus
  | exited (code : Nat)    -- WIFEXITED, code = WEXITSTATUS
  | signaled (sig : Nat)   -- WIFSIGNALED, sig = WTERMSIG
  | stopped (sig : Nat)    -- WIFSTOPPED
deriving DecidableEq, Repr

/-- One answer of the blocking `waitpid(-pgid, &status, 0)` call. -/
inductive WaitRes
  | reaped (s : WStatus)  -- some member changed state
  | echild                -- no more children in the group
  | eintr                 -- interrupted by a signal
  | errOther              -- any other error
deriving DecidableEq, Repr

/-- Outcome of `kill(-pgid, SIGCONT)`. -/
inductive KillRes
  | killOk
  | killEsrch
  | killEperm
  | killErrOther
deriving DecidableEq, Repr

/-- Environment of the foreground wait: answers of the job table, of
`kill`, of `tcsetpgrp`, and the stream of `waitpid` answers. -/
structure FgEnv where
  jidOf : Int → Int            -- jobs_get_jid(pgid); negative means unknown
  killRes : KillRes
  tcsetOk : Int → Bool         -- tcsetpgrp(STDIN_FILENO, target) succeeds?
  setStatusOk : Bool           -- jobs_set_status succeeds?
  removeOk : Bool              -- jobs_remove_pgid succeeds?
  events : List WaitRes

/-- Shell-visible state threaded through the foreground wait: the
terminal's foreground process group, the job table's recorded status for
the job being waited on (`none` until first recorded), whether the job's
table entry is still present, and the shell's `params.status`. -/
structure FgState where
  term : Int
  recorded : Option WStatus
  jobPresent : Bool
  pstatus : Int
deriving DecidableEq, Repr

/-- The common tail of `out:` / `err:` in `wait_on_fg_pgid`: when
interactive, make the shell's own group (`getpgid(0)`) the terminal
foreground group again; a failure is only reported, not fatal. -/
def fgFinish (env : FgEnv) (interactive : Bool) (shellPgid : Int) (retval : Int)
    (st : FgState) : Int × FgState :=
  if interactive then
    if env.tcsetOk shellPgid then (retval, { st with term := shellPgid })
    else (retval, st)
  else (retval, st)

/-- The `for (;;)` wait loop of `wait_on_fg_pgid`, consuming the
`waitpid` answer stream.  `none` means the stream ran out while the C
loop would still be waiting. -/
def fgLoop (env : FgEnv) (interactive : Bool) (shellPgid : Int) :
    List WaitRes → FgState → Option (Int × FgState)
  | [], _ => none
  | e :: rest, st =>
    match e with
    | .reaped s =>
      if env.setStatusOk then
        let st1 := { st with recorded := some s }
        match s with
        | .stopped _ => some (fgFinish env interactive shellPgid 0 st1)
        | _ => fgLoop env interactive shellPgid rest st1
      else some (fgFinish env interactive shellPgid (-1) st)
    | .echild =>
      match st.recorded with
      | none => some (fgFinish env interactive shellPgid (-1) st)
      | some s =>
        let ps : Int :=
          match s with
          | .exited code => (code : Int)
          | .signaled sig => 128 + (sig : Int)
          | .stopped _ => st.pstatus
        let present := if env.removeOk then false else st.jobPresent
        some (fgFinish env interactive shellPgid 0
          { st with pstatus := ps, jobPresent := present })
    | .eintr => fgLoop env interactive shellPgid rest st
    | .errOther => some (fgFinish env interactive shellPgid (-1) st)

/-- Model of `wait_on_fg_pgid` from `wait.c`.  `shellPgid` is `getpgid(0)`, the
shell's own process group.  The early error paths (bad `pgid`, unknown
job, `kill` failure, failed terminal handoff) return `-1` directly,
before the point after which the code promises terminal restoration. -/
def wait_on_fg_pgid (env : FgEnv) (interactive : Bool) (shellPgid : Int)
    (pgid : Int) (st : FgState) : Option (Int × FgState) :=
  if pgid < 0 then some (-1, st)
  else if env.jidOf pgid < 0 then some (-1, st)
  else
    match env.killRes with
    | .killEsrch => some (-1, st)
    | .killEperm => some (-1, st)
    | .killErrOther => some (-1, st)
    | .killOk =>
      if interactive then
        if env.tcsetOk pgid then
          fgLoop env interactive shellPgid env.events { st with term := pgid }
        else some (-1, st)
      else
        fgLoop env interactive shellPgid env.events st

/-! ## The background reap (`wait.c`, `wait_on_bg_jobs`)

The inner wait call of the source is literally `waitpid(0, &status, 0)`:
process selector `0` (any child in the caller's own process group) and
options `0` (no `WNOHANG`, a blocking wait).  The model records every
wait call it makes so the call's arguments are observable. -/

/-- The constant `WNOHANG` from `sys/wait.h` (Linux value). -/
def WNOHANG : Nat := 1

/-- The arguments of one `waitpid` call made by the background reap. -/
structure WaitCall where
  pidArg : Int
  options : Nat
deriving DecidableEq, Repr

/-- A `waitpid` call is non-blocking exactly when its options include
`WNOHANG`. -/
def WaitCall.nonBlocking (c : WaitCall) : Bool :=
  decide (c.options &&& WNOHANG ≠ 0)

/-- One answer of the background `waitpid` call. -/
inductive BgRes
  | gotZero               -- returned 0: children exist, none changed state
  | reaped (s : WStatus)  -- reaped a state change
  | echild                -- no children
  | errOther              -- any other error
deriving DecidableEq, Repr

/-- One job-table entry as seen by the snapshot (`struct job`). -/
structure Job where
  jid : Int
  pgid : Int
deriving DecidableEq, Repr

/-- Environment of the background reap: whether `jobs_set_status`
succeeds, and the stream of `waitpid` answers. -/
structure BgEnv where
  setStatusOk : Bool
  events : List BgRes

/-- Messages `wait_on_bg_jobs` writes to the error stream. -/
inductive BgMsg
  | done (jid : Int)
  | terminated (jid : Int)
  | stoppedMsg (jid : Int)
deriving DecidableEq, Repr

/-- Job-table state for the background reap: the live job list and each
job's recorded status (association by job id). -/
structure JobsState where
  jobs : List Job
  stat : List (Int × WStatus)
deriving DecidableEq, Repr

/-- Model of `jobs_get_status`: the recorded status of a job id. -/
def jobsGetStatus (js : JobsState) (jid : Int) : Option WStatus :=
  (js.stat.find? (fun e => e.1 = jid)).map (fun e => e.2)

/-- Model of `jobs_set_status`: record a status against a job id. -/
def jobsSetStatus (js : JobsState) (jid : Int) (s : WStatus) : JobsState :=
  { js with stat := (jid, s) :: (js.stat.filter (fun e => e.1 ≠ jid)) }

/-- Model of `jobs_remove_pgid`: drop every job with the given group id. -/
def jobsRemovePgid (js : JobsState) (pgid : Int) : JobsState :=
  { js with jobs := js.jobs.filter (fun j => j.pgid ≠ pgid) }

/-- Outcome of the inner drain loop for one job. -/
inductive BgInnerOut
  | innerBreak    -- broke out (pid == 0, or a stop was reported)
  | innerRemoved  -- saw ECHILD, reported, removed the job
  | innerFail     -- returned -1
deriving DecidableEq, Repr

/-- The inner `for (;;)` loop of `wait_on_bg_jobs` for one job: each
iteration issues `waitpid(0, &status, 0)` — the recorded call — then
dispatches on the answer.  Returns the outcome, the remaining answer
stream, the calls made, the messages printed, and the job-table state. -/
def bgInner (env : BgEnv) (jid pgid : Int) :
    List BgRes → JobsState → List WaitCall → List BgMsg →
    Option (BgInnerOut × List BgRes × JobsState × List WaitCall × List BgMsg)
  | [], _, _, _ => none
  | e :: rest, js, calls, msgs =>
    let calls1 := calls ++ [⟨0, 0⟩]
    match e with
    | .gotZero => some (.innerBreak, rest, js, calls1, msgs)
    | .echild =>
      match jobsGetStatus js jid with
      | none => some (.innerFail, rest, js, calls1, msgs)
      | some s =>
        let msgs1 :=
          match s with
          | .exited _ => msgs ++ [.done jid]
          | .signaled _ => msgs ++ [.terminated jid]
          | .stopped _ => msgs
        some (.innerRemoved, rest, jobsRemovePgid js pgid, calls1, msgs1)
    | .errOther => some (.innerFail, rest, js, calls1, msgs)
    | .reaped s =>
      if env.setStatusOk then
        let js1 := jobsSetStatus js jid s
        match s with
        | .stopped _ => some (.innerBreak, rest, js1, calls1, msgs ++ [.stoppedMsg jid])
        | _ => bgInner env jid pgid rest js1 calls1 msgs
      else some (.innerFail, rest, js, calls1, msgs)

/-- Remaining stream of a successful inner loop is strictly shorter, so
the outer loop below can recurse on the stream length. -/
theorem bgInner_shrinks (env : BgEnv) (jid pgid : Int) :
    ∀ (evs : List BgRes) (js : JobsState) (calls : List WaitCall) (msgs : List BgMsg)
      out rest js1 calls1 msgs1,
      bgInner env jid pgid evs js calls msgs = some (out, rest, js1, calls1, msgs1) →
      rest.length < evs.length := by
  intro evs
  induction evs with
  | nil => intro js calls msgs out rest js1 calls1 msgs1 h; simp [bgInner] at h
  | cons e tail ih =>
    intro js calls msgs out rest js1 calls1 msgs1 h
    simp only [List.length_cons]
    cases e with
    | gotZero =>
      simp [bgInner] at h
      rcases h with ⟨_, h2, _⟩
      subst h2
      omega
    | echild =>
      rcases hgs : jobsGetStatus js jid with _ | s
      · simp [bgInner, hgs] at h
        rcases h with ⟨_, h2, _⟩
        subst h2
        omega
      · simp [bgInner, hgs] at h
        rcases h with ⟨_, h2, _⟩
        subst h2
        omega
    | errOther =>
      simp [bgInner] at h
      rcases h with ⟨_, h2, _⟩
      subst h2
      omega
    | reaped s =>
      by_cases hok : env.setStatusOk
      · cases s with
        | stopped sig =>
          simp [bgInner, hok] at h
          rcases h with ⟨_, h2, _⟩
          subst h2
          omega
        | exited code =>
          simp [bgInner, hok] at h
          have := ih _ _ _ _ _ _ _ _ h
          omega
        | signaled sig =>
          simp [bgInner, hok] at h
          have := ih _ _ _ _ _ _ _ _ h
          omega
      · simp [bgInner, hok] at h
        rcases h with ⟨_, h2, _⟩
        subst h2
        omega

/-- The outer job loop of `wait_on_bg_jobs`.  The index walks the live
job list; the C code refetches the list pointer after each removal, and
since removal is the only mutation of the list inside the function,
reading the current list at each iteration is equivalent.  `fuel` bounds
the number of outer iterations; each successful inner loop consumes at
least one `waitpid` answer, so `events.length + 1` fuel is spent only
when the answer stream ends first (`none`, the C loop would still run). -/
def bgOuter (env : BgEnv) :
    Nat → Nat → List BgRes → JobsState → List WaitCall → List BgMsg →
    Option (Int × JobsState × List WaitCall × List BgMsg)
  | 0, _, _, _, _, _ => none
  | fuel + 1, i, evs, js, calls, msgs =>
    match js.jobs[i]? with
    | none => some (0, js, calls, msgs)
    | some job =>
      match bgInner env job.jid job.pgid evs js calls msgs with
      | none => none
      | some (out, rest, js1, calls1, msgs1) =>
        match out with
        | .innerFail => some (-1, js1, calls1, msgs1)
        | .innerBreak => bgOuter env fuel (i + 1) rest js1 calls1 msgs1
        | .innerRemoved => bgOuter env fuel (i + 1) rest js1 calls1 msgs1

/-- Model of `wait_on_bg_jobs` from `wait.c`: iterate the live job table and,
for each job, drain `waitpid(0, &status, 0)` answers. -/
def wait_on_bg_jobs (env : BgEnv) (js : JobsState) :
    Option (Int × JobsState × List WaitCall × List BgMsg) :=
  bgOuter env (env.events.length + 1) 0 env.events js [] []

/-! ## `run_command_list` (runner.c) — the pipeline executor

The model follows the parent shell process through the loop over the
command list.  Forked children are observed through the events they
cause in the parent (`fork`, `setpgid`, job registration, waits, job
notices); their internals (exec, child-side redirections) are the
external/builtin paths modelled above.  The environment decides the
answers of `pipe`, `fork`, `setpgid`, `jobs_add`, `wait_on_fg_pgid` and
of the builtin being invoked. -/

/-- Outcome of `setpgid` as classified by the source: success, the
expected `EACCES` race (explicitly ignored), or any other error
(fatal, `goto err`). -/
inductive SetpgidRes
  | spOk
  | spEacces
  | spErrOther
deriving DecidableEq, Repr

/-- Environment of the pipeline executor, indexed by command position. -/
structure RunEnv where
  pipeOk : Nat → Bool          -- pipe(2) succeeds for command i?
  forkPid : Nat → Int          -- pid fork() returns to the parent (< 0 = failure)
  setpgidRes : Nat → SetpgidRes
  jobsAdd : Int → Int          -- jobs_add(pid): job id, negative = failure
  fgWaitRes : Nat → Int        -- wait_on_fg_pgid result for command i
  statusAfterWait : Nat → Int  -- params.status as left by that wait
  builtinRes : Nat → Int       -- in-process builtin function's return value

/-- Parent-observable events of one `run_command_list` execution. -/
inductive REvent
  | forked (i : Nat) (pid : Int) (pgidArg : Int)  -- fork + setpgid(pid, pgidArg)
  | inProcessBuiltin (i : Nat)                    -- builtin ran without fork
  | registered (i : Nat) (pid : Int) (jid : Int)  -- jobs_add(pid) = jid
  | fgWait (i : Nat) (pgid : Int) (res : Int)     -- wait_on_fg_pgid(pgid) = res
  | bgNotice (i : Nat) (jid : Int) (pgid : Int)   -- "[jid] pgid" start notice
  | warned (i : Nat)                              -- warn(0) on the fg-wait error path
deriving DecidableEq, Repr

/-- The struct `pipeline_data` plus the shell globals the loop writes: whether a
pipe read end is held for the next command (`pipe_fd != -1`), the
pipeline's group id (`0` = not yet assigned) and job id, and
`params.status` / `params.bg_pid`. -/
structure RState where
  hasPipe : Bool
  pgid : Int
  jid : Int
  pstatus : Int
  bgPid : Int
deriving DecidableEq, Repr

/-- Result of processing one command: continue with the next command, or
return from `run_command_list` with a value. -/
inductive StepRes
  | cont (st : RState) (evs : List REvent)
  | halt (r : Int) (evs : List REvent)
deriving DecidableEq, Repr

/-- The parent branch after a successful spawn: close the pipe ends,
then wait (foreground) or record the background pid and print the job
notice (background), and finally reset the pipeline state when the
command's operator is not `|`. -/
def afterSpawn (env : RunEnv) (i : Nat) (cmd : Command) (st : RState) (pid : Int)
    (evs : List REvent) : StepRes :=
  if cmd.ctrlOp = .semi then
    let res := env.fgWaitRes i
    let evs1 := evs ++ [REvent.fgWait i st.pgid res]
    let ps := env.statusAfterWait i
    if res < 0 then
      if ps ≠ 127 then .halt 0 evs1
      else .halt (-1) (evs1 ++ [.warned i])
    else
      .cont { st with pstatus := ps, pgid := 0, jid := -1 } evs1
  else
    let st1 := { st with bgPid := pid, pstatus := 0 }
    let evs1 :=
      if cmd.ctrlOp = .amp then evs ++ [REvent.bgNotice i st.jid st.pgid] else evs
    if cmd.ctrlOp = .pipe then .cont st1 evs1
    else .cont { st1 with pgid := 0, jid := -1 } evs1

/-- One iteration of the `run_command_list` loop.  The fork decision is
the source's `should_fork = !is_builtin || !is_fg`; its negation — the
in-process case — is `is_builtin && is_fg`.  The in-process builtin arm
ends with `continue` at `if (child_pid == 0) continue;`, which skips the
pipeline reset at the bottom of the loop.  `setpgid` appears twice in
the source with identical arguments; one event records it. -/
def stepCommand (env : RunEnv) (i : Nat) (cmd : Command) (st : RState) : StepRes :=
  if cmd.ctrlOp = .pipe ∧ env.pipeOk i = false then .halt (-1) []
  else
    let st1 : RState := { st with hasPipe := cmd.ctrlOp = .pipe }
    if cmd.isBuiltin ∧ cmd.ctrlOp = .semi then
      .cont { st1 with pstatus := if env.builtinRes i ≠ 0 then 127 else 0 }
        [.inProcessBuiltin i]
    else
      let pid := env.forkPid i
      if pid < 0 then .halt (-1) []
      else
        match env.setpgidRes i with
        | .spErrOther => .halt (-1) [.forked i pid st1.pgid]
        | _ =>
          if st1.pgid = 0 then
            let jid := env.jobsAdd pid
            if jid < 0 then .halt (-1) [.forked i pid st1.pgid]
            else afterSpawn env i cmd { st1 with pgid := pid, jid := jid } pid
              [.forked i pid st1.pgid, .registered i pid jid]
          else afterSpawn env i cmd st1 pid [.forked i pid st1.pgid]

/-- The loop of `run_command_list` from command index `i` onward. -/
def runList (env : RunEnv) : List Command → Nat → RState → Int × List REvent
  | [], _, _ => (0, [])
  | cmd :: rest, i, st =>
    match stepCommand env i cmd st with
    | .halt r evs => (r, evs)
    | .cont st1 evs =>
      let out := runList env rest (i + 1) st1
      (out.1, evs ++ out.2)

/-- Model of `run_command_list`: process a whole command list starting from the
initial `pipeline_data = {.pipe_fd = -1, .pgid = 0, .jid = -1}`. -/
def run_command_list (env : RunEnv) (cl : List Command) : Int × List REvent :=
  runList env cl 0 ⟨false, 0, -1, 0, 0⟩

/-! # Claims

## C6 — duplicate-fd operand handling on the external path -/

/-- Spec-side characterization of an operand the `strtol` idiom accepts
completely: after optional leading blanks, an optional single sign
followed by one or more digits and nothing else. -/
def fullIntOperand (s : List Char) : Bool :=
  match s.dropWhile isSpaceC with
  | [] => false
  | c :: cs =>
    if c = '-' || c = '+' then decide (cs ≠ []) && cs.all Char.isDigit
    else (c :: cs).all Char.isDigit

/-- Spec-side value of such an operand (before `long` clamping). -/
def fullIntValue (s : List Char) : Int :=
  match s.dropWhile isSpaceC with
  | [] => 0
  | c :: cs =>
    if c = '-' then -(digitsToNat cs : Int)
    else if c = '+' then (digitsToNat cs : Int)
    else (digitsToNat (c :: cs) : Int)

/-- The branch test of the source's `strtol` idiom coincides with the
spec-side characterization, and on acceptance the parsed value is the
clamped operand value. -/
theorem strtol10_operand_spec (s : List Char) :
    ((decide (s ≠ []) && decide ((strtol10 s).2 = [])) = fullIntOperand s) ∧
    (fullIntOperand s = true → (strtol10 s).1 = clampLong (fullIntValue s)) := by
  rcases hs : s.dropWhile isSpaceC with _ | ⟨c, cs⟩
  · have hsBranch : ∀ r, (strtol10 s).2 = r → r = s := by
      intro r hr
      simp [strtol10, hs] at hr
      exact hr.symm
    constructor
    · by_cases hempty : s = []
      · subst hempty
        simp [fullIntOperand, strtol10]
      · have h2 : (strtol10 s).2 = s := by
          simp [strtol10, hs]
        simp [fullIntOperand, hs, h2, hempty]
    · intro hop
      simp [fullIntOperand, hs] at hop
  · have hne : s ≠ [] := by
      intro hnil
      rw [hnil] at hs
      simp at hs
    by_cases hminus : c = '-'
    · subst hminus
      constructor
      · by_cases hall : cs.all Char.isDigit
        · by_cases hcs : cs = []
          · subst hcs
            simp [fullIntOperand, hs, strtol10]
          · have htake : cs.takeWhile Char.isDigit = cs := by
              rw [List.takeWhile_eq_self_iff]
              simpa [List.all_eq_true] using hall
            have hdrop : cs.dropWhile Char.isDigit = [] := by
              rw [List.dropWhile_eq_nil_iff]
              simpa [List.all_eq_true] using hall
            simp [fullIntOperand, hs, strtol10, htake, hdrop, hcs, hne, hall]
        · have hd : cs.dropWhile Char.isDigit ≠ [] := by
            rw [Ne, List.dropWhile_eq_nil_iff]
            simpa [List.all_eq_true] using hall
          rcases htk : cs.takeWhile Char.isDigit with _ | ⟨d, ds⟩
          · simp [fullIntOperand, hs, strtol10, htk, hne, hall]
          · have : (strtol10 s).2 = cs.dropWhile Char.isDigit := by
              simp [strtol10, hs, htk]
            simp [fullIntOperand, hs, hall, this, hd, hne]
      · intro hop
        simp [fullIntOperand, hs] at hop
        have hcs : cs ≠ [] := hop.1
        have hall : cs.all Char.isDigit := by
          simpa [List.all_eq_true] using hop.2
        have htake : cs.takeWhile Char.isDigit = cs := by
          rw [List.takeWhile_eq_self_iff]
          simpa [List.all_eq_true] using hall
        simp [strtol10, hs, htake, hcs, fullIntValue]
    · by_cases hplus : c = '+'
      · subst hplus
        constructor
        · by_cases hall : cs.all Char.isDigit
          · by_cases hcs : cs = []
            · subst hcs
              simp [fullIntOperand, hs, strtol10]
            · have htake : cs.takeWhile Char.isDigit = cs := by
                rw [List.takeWhile_eq_self_iff]
                simpa [List.all_eq_true] using hall
              have hdrop : cs.dropWhile Char.isDigit = [] := by
                rw [List.dropWhile_eq_nil_iff]
                simpa [List.all_eq_true] using hall
              simp [fullIntOperand, hs, strtol10, htake, hdrop, hcs, hne, hall]
          · have hd : cs.dropWhile Char.isDigit ≠ [] := by
              rw [Ne, List.dropWhile_eq_nil_iff]
              simpa [List.all_eq_true] using hall
            rcases htk : cs.takeWhile Char.isDigit with _ | ⟨d, ds⟩
            · simp [fullIntOperand, hs, strtol10, htk, hne, hall]
            · have : (strtol10 s).2 = cs.dropWhile Char.isDigit := by
                simp [strtol10, hs, htk]
              simp [fullIntOperand, hs, hall, this, hd, hne]
        · intro hop
          simp [fullIntOperand, hs] at hop
          have hcs : cs ≠ [] := hop.1
          have hall : cs.all Char.isDigit := by
            simpa [List.all_eq_true] using hop.2
          have htake : cs.takeWhile Char.isDigit = cs := by
            rw [List.takeWhile_eq_self_iff]
            simpa [List.all_eq_true] using hall
          simp [strtol10, hs, htake, hcs, fullIntValue, hminus]
      · constructor
        · by_cases hall : (c :: cs).all Char.isDigit
          · have htake : (c :: cs).takeWhile Char.isDigit = c :: cs := by
              rw [List.takeWhile_eq_self_iff]
              simpa [List.all_eq_true] using hall
            have hdrop : (c :: cs).dropWhile Char.isDigit = [] := by
              rw [List.dropWhile_eq_nil_iff]
              simpa [List.all_eq_true] using hall
            simp [fullIntOperand, hs, strtol10, hminus, hplus, htake, hdrop, hne, hall]
          · have hd : (c :: cs).dropWhile Char.isDigit ≠ [] := by
              rw [Ne, List.dropWhile_eq_nil_iff]
              simpa [List.all_eq_true] using hall
            rcases htk : (c :: cs).takeWhile Char.isDigit with _ | ⟨d, ds⟩
            · simp [fullIntOperand, hs, strtol10, hminus, hplus, htk, hne, hall]
            · have : (strtol10 s).2 = (c :: cs).dropWhile Char.isDigit := by
                simp [strtol10, hs, hminus, hplus, htk]
              simp [fullIntOperand, hs, hminus, hplus, hall, this, hd, hne]
        · intro hop
          simp [fullIntOperand, hs, hminus, hplus] at hop
          have htake : (c :: cs).takeWhile Char.isDigit = c :: cs := by
            rw [List.takeWhile_eq_self_iff]
            simpa [List.all_eq_true] using hop
          simp [strtol10, hs, hminus, hplus, htake, fullIntValue]

/-- Concrete environment: no `open` failure. -/
def env6 : RedirEnv := ⟨fun _ => false⟩

/-- A descriptor table with standard streams 0, 1, 2 open. -/
def t6 : FdTable := ⟨[(0, 10), (1, 11), (2, 12)], 0⟩

/-- The redirection `2>& -2`: a duplicate-fd operator whose operand is a
negative integer. -/
def r6 : IoRedir := ⟨.opGreatand, 2, "-2"⟩

/-- C6 counterexample: the claim says every operand that does not parse
fully as a *non-negative* integer falls back to file-open semantics.
The operand `-2` parses fully as a negative integer, so the code takes
the `dup2` branch, which fails hard (`dup2(-2, 2)` is `EBADF`), while
the file-open fallback the claim prescribes would succeed. -/
theorem c6_counterexample :
    extRedirStep env6 t6 r6 = none ∧
    extFileOpen env6 t6 r6 ≠ none ∧
    r6.filename ≠ "-" ∧
    fullIntValue r6.filename.data < 0 := by decide

/-- C6 (amended): for a duplicate-fd redirection on the external path,
the literal `-` closes the target descriptor; an operand that parses
fully as an integer — sign allowed, so possibly negative — whose clamped
value is at most `INT_MAX` is truncated to `int` (the `(int)src` cast,
two's-complement wrap) and that descriptor is passed to `dup2` onto the
target: a negative in-range operand makes `dup2` fail rather than
falling back, while an operand below `INT_MIN` can wrap to a valid open
descriptor and succeed; and every other operand string falls back to
file-open semantics, whose flags coincide with those of
plain `<`/`>`. -/
theorem c6_dupfd_operand_amended (env : RedirEnv) (t : FdTable) (r : IoRedir)
    (hop : r.io_op = .opGreatand ∨ r.io_op = .opLessand) :
    (r.filename = "-" → extRedirStep env t r = closeF t r.io_number) ∧
    (r.filename ≠ "-" → fullIntOperand r.filename.data = true →
      clampLong (fullIntValue r.filename.data) ≤ INT_MAX →
      extRedirStep env t r =
        dup2F t (toCInt (clampLong (fullIntValue r.filename.data))) r.io_number) ∧
    (r.filename ≠ "-" →
      (fullIntOperand r.filename.data = false ∨
        INT_MAX < clampLong (fullIntValue r.filename.data)) →
      extRedirStep env t r = extFileOpen env t r) ∧
    get_io_flags .opGreatand = get_io_flags .opGreat ∧
    get_io_flags .opLessand = get_io_flags .opLess := by
  have hspec := strtol10_operand_spec r.filename.data
  refine ⟨?_, ?_, ?_, rfl, rfl⟩
  · intro hdash
    simp [extRedirStep, hop, hdash]
  · intro hdash hfull hle
    have hval := hspec.2 hfull
    have hcond : strtolFullLeIntMax r.filename = true := by
      unfold strtolFullLeIntMax
      rw [hspec.1, hfull, hval]
      simp [hle]
    simp [extRedirStep, hop, hdash, hcond, hval]
  · intro hdash hbad
    have hcond : strtolFullLeIntMax r.filename = false := by
      unfold strtolFullLeIntMax
      rcases hbad with hb | hb
      · rw [hspec.1, hb]
        simp
      · rcases Bool.eq_false_or_eq_true (fullIntOperand r.filename.data) with hfo | hfo
        · have hval := hspec.2 hfo
          rw [hspec.1, hfo, hval]
          simp
          omega
        · rw [hspec.1, hfo]
          simp
    simp [extRedirStep, hop, hdash, hcond]

/-- A descriptor table with descriptors 0, 1, 2 and 3 open. -/
def t6open3 : FdTable := ⟨[(0, 10), (1, 11), (2, 12), (3, 13)], 0⟩

/-- Witness for C6 (amended): the operand `5` of `2>&5` is accepted by
the idiom and the step is exactly the `dup2` of 5 onto 2; the operand
`-4294967293` truncates to descriptor 3, so with descriptor 3 open the
duplicate-fd step succeeds — the wrap the `(int)src` cast performs. -/
theorem c6_dupfd_operand_amended_witness :
    (extRedirStep env6 t6 ⟨.opGreatand, 2, "5"⟩ =
      dup2F t6 (toCInt (clampLong (fullIntValue "5".data))) 2) ∧
    (extRedirStep env6 t6open3 ⟨.opGreatand, 2, "-4294967293"⟩ =
      dup2F t6open3 (toCInt (clampLong (fullIntValue "-4294967293".data))) 2) ∧
    toCInt (clampLong (fullIntValue "-4294967293".data)) = 3 ∧
    extRedirStep env6 t6open3 ⟨.opGreatand, 2, "-4294967293"⟩ ≠ none :=
  ⟨(c6_dupfd_operand_amended env6 t6 ⟨.opGreatand, 2, "5"⟩ (Or.inl rfl)).2.1
      (by decide) (by decide) (by decide),
   (c6_dupfd_operand_amended env6 t6open3 ⟨.opGreatand, 2, "-4294967293"⟩
      (Or.inl rfl)).2.1 (by decide) (by decide) (by decide),
   by decide, by decide⟩

/-! ## C7 — failure semantics of a redirection sequence -/

/-- One failing step of the builtin path leaves `status = -1` forever:
the loop's `err:` label only ever assigns `-1`. -/
theorem builtinRedirStep_status_latch (env : RedirEnv) (st : BRState) (r : IoRedir)
    (h : st.status = -1) : (builtinRedirStep env st r).status = -1 := by
  unfold builtinRedirStep fileOpenBuiltin
  repeat' split
  all_goals simp [h]

/-- The latch extends over the whole builtin redirection sequence. -/
theorem do_builtin_status_latch (env : RedirEnv) (rs : List IoRedir) :
    ∀ st : BRState, st.status = -1 → (do_builtin_io_redirects env rs st).status = -1 := by
  induction rs with
  | nil => intro st h; simpa [do_builtin_io_redirects]
  | cons r rest ih =>
    intro st h
    have : do_builtin_io_redirects env (r :: rest) st =
        do_builtin_io_redirects env rest (builtinRedirStep env st r) := rfl
    rw [this]
    exact ih _ (builtinRedirStep_status_latch env st r h)

/-- Concrete environment in which opening the file `nope` fails. -/
def env7 : RedirEnv := ⟨fun s => s = "nope"⟩

/-- A builtin redirection state over the standard streams, no records. -/
def st7 : BRState := ⟨t6, [], 0⟩

/-- The redirection sequence `> nope 2>&1`: the first redirection fails
(the open fails), the second is a valid duplicate-fd redirection. -/
def rs7 : List IoRedir := [⟨.opGreat, 1, "nope"⟩, ⟨.opGreatand, 2, "1"⟩]

/-- C7 counterexample: on the builtin path a failure does not abort the
sequence.  With `> nope 2>&1`, the first redirection alone already
fails (`status = -1`), yet after the whole sequence a record for
pseudo-descriptor 2 exists — the second redirection was still applied
after the failure, contradicting the claim that no later redirection of
the same command is applied on either path. -/
theorem c7_counterexample :
    (do_builtin_io_redirects env7 [⟨.opGreat, 1, "nope"⟩] st7).status = -1 ∧
    (do_builtin_io_redirects env7 rs7 st7).status = -1 ∧
    (do_builtin_io_redirects env7 rs7 st7).recs = [⟨2, 3⟩] := by decide

/-- C7 (amended): on the external path any failing redirection aborts
the whole sequence immediately — the remaining redirections are not
examined and the function returns `-1` with the table as the failing
step left it.  On the builtin path a failure only latches `status = -1`;
the remaining redirections are still applied (the fold continues), and
`run_command_list` ignores the returned status. -/
theorem c7_redirect_failure_amended (env : RedirEnv) :
    (∀ (r : IoRedir) (rest : List IoRedir) (t : FdTable),
      extRedirStep env t r = none → do_io_redirects env (r :: rest) t = (-1, t)) ∧
    (∀ (r : IoRedir) (rest : List IoRedir) (st : BRState),
      do_builtin_io_redirects env (r :: rest) st =
        do_builtin_io_redirects env rest (builtinRedirStep env st r)) ∧
    (∀ (rs : List IoRedir) (st : BRState), st.status = -1 →
      (do_builtin_io_redirects env rs st).status = -1) := by
  refine ⟨?_, ?_, ?_⟩
  · intro r rest t h
    simp [do_io_redirects, h]
  · intro r rest st
    rfl
  · intro rs st h
    exact do_builtin_status_latch env rs st h

/-- Witness for C7 (amended): with `> nope` failing, the external path
returns `-1` at once and leaves the table untouched. -/
theorem c7_redirect_failure_amended_witness :
    do_io_redirects env7 [⟨.opGreat, 1, "nope"⟩, ⟨.opGreatand, 2, "1"⟩] t6 = (-1, t6) :=
  (c7_redirect_failure_amended env7).1 ⟨.opGreat, 1, "nope"⟩ [⟨.opGreatand, 2, "1"⟩] t6
    (by decide)

/-! ## C8 — the virtual redirection overlay -/

/-- Pairwise relation expressing "at most one record per non-negative
pseudo-descriptor": among two records, the earlier one either is
disassociated (negative pseudo-descriptor) or carries a different
pseudo-descriptor than the later one. -/
def recPairwiseRel (a b : BuiltinRedir) : Prop :=
  a.pseudofd < 0 ∨ a.pseudofd ≠ b.pseudofd

/-- At most one live record per non-negative pseudo-descriptor. -/
def uniqRecs (l : List BuiltinRedir) : Prop :=
  l.Pairwise recPairwiseRel

instance (a b : BuiltinRedir) : Decidable (recPairwiseRel a b) := by
  unfold recPairwiseRel
  infer_instance

instance (l : List BuiltinRedir) : Decidable (uniqRecs l) := by
  unfold uniqRecs
  infer_instance

/-- When `closeRec` finds no record, no record carries the target
pseudo-descriptor. -/
theorem closeRec_not_found (t : FdTable) (n : Int) :
    ∀ l : List BuiltinRedir, closeRec t n l = none → ∀ rec ∈ l, rec.pseudofd ≠ n := by
  intro l
  induction l with
  | nil => intro _ rec hrec; simp at hrec
  | cons r0 rest ih =>
    intro h rec hrec
    by_cases hpf : r0.pseudofd = n
    · simp [closeRec, hpf] at h
    · rcases hrc : closeRec t n rest with _ | p
      · rcases List.mem_cons.mp hrec with h1 | h1
        · rw [h1]; exact hpf
        · exact ih hrc rec h1
      · simp [closeRec, hpf, hrc] at h

/-- Every record `closeRec` returns is either disassociated or carries a
pseudo-descriptor some input record already had. -/
theorem closeRec_pf_shape (t : FdTable) (n : Int) :
    ∀ (l : List BuiltinRedir) (t1 : FdTable) (l1 : List BuiltinRedir),
      closeRec t n l = some (t1, l1) →
      ∀ b ∈ l1, b.pseudofd = -1 ∨ ∃ b' ∈ l, b.pseudofd = b'.pseudofd := by
  intro l
  induction l with
  | nil => intro t1 l1 h; simp [closeRec] at h
  | cons rec rest ih =>
    intro t1 l1 h b hb
    by_cases hpf : rec.pseudofd = n
    · simp [closeRec, hpf] at h
      obtain ⟨_, hl⟩ := h
      rw [← hl] at hb
      rcases List.mem_cons.mp hb with hb1 | hb1
      · left; simp [hb1]
      · right; exact ⟨b, List.mem_cons_of_mem _ hb1, rfl⟩
    · rcases hrc : closeRec t n rest with _ | ⟨t2, rest2⟩
      · simp [closeRec, hpf, hrc] at h
      · simp [closeRec, hpf, hrc] at h
        obtain ⟨_, hl⟩ := h
        rw [← hl] at hb
        rcases List.mem_cons.mp hb with hb1 | hb1
        · right; exact ⟨rec, List.mem_cons_self _ _, by rw [hb1]⟩
        · rcases ih t2 rest2 hrc b hb1 with h1 | ⟨b', hb', h2⟩
          · left; exact h1
          · right; exact ⟨b', List.mem_cons_of_mem _ hb', h2⟩

/-- Lemma: `closeRec` preserves the at-most-one-record invariant. -/
theorem closeRec_pairwise (t : FdTable) (n : Int) :
    ∀ (l : List BuiltinRedir) (t1 : FdTable) (l1 : List BuiltinRedir),
      closeRec t n l = some (t1, l1) → uniqRecs l → uniqRecs l1 := by
  intro l
  induction l with
  | nil => intro t1 l1 h; simp [closeRec] at h
  | cons rec rest ih =>
    intro t1 l1 h hu
    rw [uniqRecs, List.pairwise_cons] at hu
    obtain ⟨hrel, hrest⟩ := hu
    by_cases hpf : rec.pseudofd = n
    · simp [closeRec, hpf] at h
      obtain ⟨_, hl⟩ := h
      rw [← hl]
      rw [uniqRecs, List.pairwise_cons]
      refine ⟨fun b _ => Or.inl (by simp), hrest⟩
    · rcases hrc : closeRec t n rest with _ | ⟨t2, rest2⟩
      · simp [closeRec, hpf, hrc] at h
      · simp [closeRec, hpf, hrc] at h
        obtain ⟨_, hl⟩ := h
        rw [← hl]
        rw [uniqRecs, List.pairwise_cons]
        constructor
        · intro b hb
          rcases closeRec_pf_shape t n rest t2 rest2 hrc b hb with hb1 | ⟨b', hb', hpf'⟩
          · by_cases hr0 : rec.pseudofd < 0
            · exact Or.inl hr0
            · right; rw [hb1]; omega
          · rcases hrel b' hb' with h1 | h1
            · exact Or.inl h1
            · right; rw [hpf']; exact h1
        · exact ih t2 rest2 hrc hrest

/-- After a successful `closeRec` on a unique list, no record carries
the closed pseudo-descriptor any more. -/
theorem closeRec_countP (t : FdTable) (n : Int) (hn : 0 ≤ n) :
    ∀ (l : List BuiltinRedir) (t1 : FdTable) (l1 : List BuiltinRedir),
      closeRec t n l = some (t1, l1) → uniqRecs l →
      l1.countP (fun rec => decide (rec.pseudofd = n)) = 0 := by
  intro l
  induction l with
  | nil => intro t1 l1 h; simp [closeRec] at h
  | cons rec rest ih =>
    intro t1 l1 h hu
    rw [uniqRecs, List.pairwise_cons] at hu
    obtain ⟨hrel, hrest⟩ := hu
    by_cases hpf : rec.pseudofd = n
    · simp [closeRec, hpf] at h
      obtain ⟨_, hl⟩ := h
      rw [← hl]
      rw [List.countP_cons]
      have hz : rest.countP (fun rec => decide (rec.pseudofd = n)) = 0 := by
        rw [List.countP_eq_zero]
        intro b hb
        rcases hrel b hb with h1 | h1
        · simp; omega
        · simp; rw [← hpf]; exact fun hc => h1 (by rw [hc])
      simp [hz]
      omega
    · rcases hrc : closeRec t n rest with _ | ⟨t2, rest2⟩
      · simp [closeRec, hpf, hrc] at h
      · simp [closeRec, hpf, hrc] at h
        obtain ⟨_, hl⟩ := h
        rw [← hl]
        rw [List.countP_cons]
        have hz := ih t2 rest2 hrc hrest
        simp [hz, hpf]

/-- When `dupExisting` finds no record, no record carries the target
pseudo-descriptor. -/
theorem dupExisting_not_found (t : FdTable) (src n : Int) :
    ∀ l : List BuiltinRedir, dupExisting t src n l = .dupNone →
      ∀ rec ∈ l, rec.pseudofd ≠ n := by
  intro l
  induction l with
  | nil => intro _ rec hrec; simp at hrec
  | cons r0 rest ih =>
    intro h rec hrec
    by_cases hpf : r0.pseudofd = n
    · rcases hd : dup2F t src r0.realfd with _ | t1
      · simp [dupExisting, hpf, hd] at h
      · simp [dupExisting, hpf, hd] at h
    · simp only [dupExisting, hpf, if_neg] at h
      rcases List.mem_cons.mp hrec with h1 | h1
      · rw [h1]; exact hpf
      · exact ih (by simpa [hpf] using h) rec h1

/-- When `moveExisting` finds no record, no record carries the target
pseudo-descriptor. -/
theorem moveExisting_not_found (t : FdTable) (fd n : Int) :
    ∀ l : List BuiltinRedir, moveExisting t fd n l = .mvNone →
      ∀ rec ∈ l, rec.pseudofd ≠ n := by
  intro l
  induction l with
  | nil => intro _ rec hrec; simp at hrec
  | cons r0 rest ih =>
    intro h rec hrec
    by_cases hpf : r0.pseudofd = n
    · rcases hd : move_fd t fd r0.realfd with _ | t1
      · simp [moveExisting, hpf, hd] at h
      · simp [moveExisting, hpf, hd] at h
    · rcases List.mem_cons.mp hrec with h1 | h1
      · rw [h1]; exact hpf
      · exact ih (by simpa [moveExisting, hpf] using h) rec h1

/-- Prepending a fresh record for a pseudo-descriptor no existing record
carries preserves the invariant. -/
theorem uniqRecs_cons_fresh (l : List BuiltinRedir) (n fd : Int)
    (hu : uniqRecs l) (hfresh : ∀ rec ∈ l, rec.pseudofd ≠ n) :
    uniqRecs (⟨n, fd⟩ :: l) := by
  rw [uniqRecs, List.pairwise_cons]
  exact ⟨fun b hb => Or.inr fun hc => hfresh b hb (by simpa using hc.symm), hu⟩

/-- The file-open branch of the builtin path preserves the invariant. -/
theorem fileOpenBuiltin_uniq (env : RedirEnv) (st : BRState) (r : IoRedir)
    (hu : uniqRecs st.recs) : uniqRecs (fileOpenBuiltin env st r).recs := by
  unfold fileOpenBuiltin
  rcases ho : openF env st.t r.filename with _ | ⟨fd, t1⟩
  · simp only [ho]; exact hu
  · simp only [ho]
    cases hme : moveExisting t1 fd r.io_number st.recs with
    | mvOk t2 => simp only [hme]; exact hu
    | mvErr t2 => simp only [hme]; exact hu
    | mvNone =>
      simp only [hme]
      exact uniqRecs_cons_fresh _ _ _ hu (moveExisting_not_found _ _ _ _ hme)

/-- Every step of `do_builtin_io_redirects` preserves the at-most-one-
record invariant. -/
theorem builtinRedirStep_uniq (env : RedirEnv) (st : BRState) (r : IoRedir)
    (hu : uniqRecs st.recs) : uniqRecs (builtinRedirStep env st r).recs := by
  unfold builtinRedirStep
  split
  · split
    · rcases hrc : closeRec st.t r.io_number st.recs with _ | ⟨t1, l1⟩
      · simp only [hrc]
        exact uniqRecs_cons_fresh _ _ _ hu (closeRec_not_found _ _ _ hrc)
      · simp only [hrc]
        exact closeRec_pairwise _ _ _ _ _ hrc hu
    · split
      · rcases hrs : resolveSrc st.recs (strtol10 r.filename.data).1 with _ | src
        · simp only [hrs]; exact hu
        · simp only [hrs]
          cases hde : dupExisting st.t (toCInt src) r.io_number st.recs with
          | dupOk t1 => simp only [hde]; exact hu
          | dupErr => simp only [hde]; exact hu
          | dupNone =>
            simp only [hde]
            rcases hdf : dupF st.t (toCInt src) with _ | ⟨fd, t1⟩
            · simp only [hdf]
              exact uniqRecs_cons_fresh _ _ _ hu (dupExisting_not_found _ _ _ _ hde)
            · simp only [hdf]
              exact uniqRecs_cons_fresh _ _ _ hu (dupExisting_not_found _ _ _ _ hde)
      · exact fileOpenBuiltin_uniq env st r hu
  · exact fileOpenBuiltin_uniq env st r hu

/-- The invariant holds after any full builtin redirection sequence. -/
theorem do_builtin_uniq (env : RedirEnv) (rs : List IoRedir) :
    ∀ st : BRState, uniqRecs st.recs →
      uniqRecs (do_builtin_io_redirects env rs st).recs := by
  induction rs with
  | nil => intro st h; exact h
  | cons r rest ih => intro st h; exact ih _ (builtinRedirStep_uniq env st r h)

/-- After a close redirection (`n>&-` / `n<&-`) no record maps the
closed pseudo-descriptor to a live real descriptor. -/
theorem builtinRedirStep_close_no_live (env : RedirEnv) (st : BRState) (r : IoRedir)
    (hop : r.io_op = .opGreatand ∨ r.io_op = .opLessand) (hdash : r.filename = "-")
    (hn : 0 ≤ r.io_number) (hu : uniqRecs st.recs) :
    (builtinRedirStep env st r).recs.countP
      (fun rec => decide (rec.pseudofd = r.io_number) && decide (0 ≤ rec.realfd)) = 0 := by
  have hred : builtinRedirStep env st r =
      match closeRec st.t r.io_number st.recs with
      | some (t1, recs1) => { st with t := t1, recs := recs1 }
      | none => { st with recs := ⟨r.io_number, -1⟩ :: st.recs } := by
    rcases hop with h | h <;> simp [builtinRedirStep, h, hdash]
  rw [hred]
  rcases hrc : closeRec st.t r.io_number st.recs with _ | ⟨t1, l1⟩
  · simp only [hrc]
    have hfresh := closeRec_not_found _ _ _ hrc
    rw [List.countP_eq_zero]
    intro a ha
    rcases List.mem_cons.mp ha with h1 | h1
    · rw [h1]; simp
    · simp only [Bool.and_eq_true, decide_eq_true_eq, not_and]
      intro hc
      exact absurd hc (hfresh a h1)
  · simp only [hrc]
    have h0 := closeRec_countP st.t r.io_number hn st.recs t1 l1 hrc hu
    have hle := List.countP_mono_left (l := l1)
      (p := fun rec => decide (rec.pseudofd = r.io_number) && decide (0 ≤ rec.realfd))
      (q := fun rec => decide (rec.pseudofd = r.io_number))
      (fun a _ ha => by
        simp only [Bool.and_eq_true] at ha
        exact ha.1)
    simp only [h0] at hle
    omega

/-- The state of a builtin whose upstream pipe read end is descriptor 5:
the seed maps pseudo-descriptor 0 to real descriptor 5. -/
def st8 : BRState := ⟨⟨[(0, 10), (1, 11), (2, 12), (5, 15)], 0⟩, [⟨0, 5⟩], 0⟩

/-- The close redirection `0<&-`. -/
def r8 : IoRedir := ⟨.opLessand, 0, "-"⟩

/-- C8 counterexample: closing mapped pseudo-descriptor 0 sets the
record's *pseudo*-descriptor to `-1` (keeping `realfd = 5`), not its
real descriptor to "closed"; afterwards no record carries
pseudo-descriptor 0, so a second `0<&-` does not find the record and
allocates a brand-new one instead of updating it. -/
theorem c8_counterexample :
    (builtinRedirStep env6 st8 r8).recs = [⟨-1, 5⟩] ∧
    ((builtinRedirStep env6 st8 r8).recs.countP
      (fun rec => decide (rec.pseudofd = 0))) = 0 ∧
    (builtinRedirStep env6 (builtinRedirStep env6 st8 r8) r8).recs =
      [⟨0, -1⟩, ⟨-1, 5⟩] := by decide

/-- C8 (amended): the overlay keeps at most one record per non-negative
pseudo-descriptor throughout a builtin's redirections (updates replace
rather than duplicate); closing a pseudo-descriptor leaves no live
mapping for it — by disassociating the found record (its
pseudo-descriptor becomes `-1`, so later operations on that
pseudo-descriptor do *not* find it), or by adding a record whose real
descriptor is the "closed" marker `-1` when none was mapped. -/
theorem c8_overlay_invariant_amended (env : RedirEnv) :
    (∀ (rs : List IoRedir) (st : BRState), uniqRecs st.recs →
      uniqRecs (do_builtin_io_redirects env rs st).recs) ∧
    (∀ (st : BRState) (r : IoRedir), (r.io_op = .opGreatand ∨ r.io_op = .opLessand) →
      r.filename = "-" → 0 ≤ r.io_number → uniqRecs st.recs →
      (builtinRedirStep env st r).recs.countP
        (fun rec => decide (rec.pseudofd = r.io_number) && decide (0 ≤ rec.realfd)) = 0) :=
  ⟨fun rs st hu => do_builtin_uniq env rs st hu,
   fun st r hop hdash hn hu => builtinRedirStep_close_no_live env st r hop hdash hn hu⟩

/-- Witness for C8 (amended): applied to the seeded state and `0<&-`. -/
theorem c8_overlay_invariant_amended_witness :
    uniqRecs (do_builtin_io_redirects env6 [r8] st8).recs ∧
    (builtinRedirStep env6 st8 r8).recs.countP
      (fun rec => decide (rec.pseudofd = r8.io_number) && decide (0 ≤ rec.realfd)) = 0 :=
  ⟨(c8_overlay_invariant_amended env6).1 [r8] st8 (by decide),
   (c8_overlay_invariant_amended env6).2 st8 r8 (Or.inr rfl) rfl (by decide) (by decide)⟩

/-! ## C9 — builtin invocations leave descriptors 0/1/2 untouched -/

/-- Lemma: `find?` by key is unaffected by filtering out a different key. -/
theorem find?_filter_keyne (l : List (Int × Nat)) (k j : Int) (hne : j ≠ k) :
    (l.filter (fun e => e.1 ≠ k)).find? (fun e => e.1 = j) =
      l.find? (fun e => e.1 = j) := by
  induction l with
  | nil => rfl
  | cons e rest ih =>
    by_cases hk : e.1 = k
    · rw [List.filter_cons_of_neg (by simpa using hk)]
      rw [List.find?_cons_of_neg _ (by
        simp only [decide_eq_true_eq]
        rw [hk]
        exact fun hc => hne hc.symm)]
      exact ih
    · rw [List.filter_cons_of_pos (by simpa using hk)]
      by_cases hj : e.1 = j
      · rw [List.find?_cons_of_pos _ (by simpa using hj),
          List.find?_cons_of_pos _ (by simpa using hj)]
      · rw [List.find?_cons_of_neg _ (by simpa using hj),
          List.find?_cons_of_neg _ (by simpa using hj)]
        exact ih

/-- After filtering out a key, looking it up finds nothing. -/
theorem find?_filter_keyeq (l : List (Int × Nat)) (k : Int) :
    (l.filter (fun e => e.1 ≠ k)).find? (fun e => e.1 = k) = none := by
  rw [List.find?_eq_none]
  intro x hx
  have := (List.mem_filter.mp hx).2
  simp only [decide_eq_true_eq] at this ⊢
  exact this

/-- Lookup after `fdSet`. -/
theorem fdLookup_fdSet (t : FdTable) (k : Int) (v : Nat) (j : Int) :
    fdLookup (fdSet t k v) j = if j = k then some v else fdLookup t j := by
  unfold fdLookup fdSet
  by_cases hj : j = k
  · subst hj
    rw [if_pos rfl]
    rw [List.find?_cons_of_pos _ (by simp)]
    rfl
  · rw [if_neg hj]
    rw [List.find?_cons_of_neg _ (by
      simp only [decide_eq_true_eq]
      exact fun hc => hj hc.symm)]
    rw [find?_filter_keyne t.entries k j hj]

/-- Lookup after `fdRemove`. -/
theorem fdLookup_fdRemove (t : FdTable) (k j : Int) :
    fdLookup (fdRemove t k) j = if j = k then none else fdLookup t j := by
  unfold fdLookup fdRemove
  by_cases hj : j = k
  · subst hj
    rw [if_pos rfl, find?_filter_keyeq t.entries j]
    rfl
  · rw [if_neg hj, find?_filter_keyne t.entries k j hj]

/-- Lookup after a successful `openF`. -/
theorem fdLookup_openF (env : RedirEnv) (t : FdTable) (name : String) (fd : Int)
    (t1 : FdTable) (h : openF env t name = some (fd, t1)) (j : Int) :
    fd = allocFd t ∧ fdLookup t1 j = if j = fd then some t.next else fdLookup t j := by
  unfold openF at h
  by_cases hf : env.openFails name
  · simp [hf] at h
  · simp [hf] at h
    obtain ⟨hfd, ht⟩ := h
    subst hfd
    refine ⟨rfl, ?_⟩
    rw [← ht]
    unfold fdLookup
    by_cases hj : j = allocFd t
    · subst hj
      rw [if_pos rfl]
      rw [List.find?_cons_of_pos _ (by simp)]
      rfl
    · rw [if_neg hj]
      rw [List.find?_cons_of_neg _ (by
        simp only [decide_eq_true_eq]
        exact fun hc => hj hc.symm)]
      rw [show (fun e : Int × Nat => !decide (e.1 = allocFd t)) =
        (fun e : Int × Nat => decide (e.1 ≠ allocFd t)) by
          funext e
          simp]
      rw [find?_filter_keyne t.entries (allocFd t) j hj]

/-- The standard streams are open. -/
def stdOpen (t : FdTable) : Prop :=
  (fdLookup t 0).isSome = true ∧ (fdLookup t 1).isSome = true ∧
    (fdLookup t 2).isSome = true

/-- A real descriptor value the builtin machinery may hold: the closed
marker (negative) or a descriptor outside the standard streams. -/
def fdSafe (fd : Int) : Prop := fd < 0 ∨ 3 ≤ fd

/-- Every record's real descriptor is safe. -/
def recsSafe (l : List BuiltinRedir) : Prop := ∀ rec ∈ l, fdSafe rec.realfd

/-- Lookups of the standard streams agree between two tables. -/
def preserved012 (t0 t : FdTable) : Prop :=
  fdLookup t 0 = fdLookup t0 0 ∧ fdLookup t 1 = fdLookup t0 1 ∧
    fdLookup t 2 = fdLookup t0 2

theorem preserved012_refl (t : FdTable) : preserved012 t t := ⟨rfl, rfl, rfl⟩

theorem preserved012_trans (t0 t1 t2 : FdTable)
    (h01 : preserved012 t0 t1) (h12 : preserved012 t1 t2) : preserved012 t0 t2 :=
  ⟨h12.1.trans h01.1, h12.2.1.trans h01.2.1, h12.2.2.trans h01.2.2⟩

theorem stdOpen_of_preserved (t0 t : FdTable) (h : preserved012 t0 t)
    (h0 : stdOpen t0) : stdOpen t :=
  ⟨h.1 ▸ h0.1, h.2.1 ▸ h0.2.1, h.2.2 ▸ h0.2.2⟩

/-- Lemma: `fdSet` at a safe descriptor leaves the standard streams alone. -/
theorem fdSet_preserves (t : FdTable) (k : Int) (v : Nat) (hk : fdSafe k) :
    preserved012 t (fdSet t k v) := by
  have hne : ∀ j : Int, 0 ≤ j → j ≤ 2 → fdLookup (fdSet t k v) j = fdLookup t j := by
    intro j h0 h2
    rw [fdLookup_fdSet]
    rcases hk with hk | hk
    · rw [if_neg (by omega)]
    · rw [if_neg (by omega)]
  exact ⟨hne 0 (by norm_num) (by norm_num), hne 1 (by norm_num) (by norm_num),
    hne 2 (by norm_num) (by norm_num)⟩

/-- Lemma: `fdRemove` at a safe descriptor leaves the standard streams alone. -/
theorem fdRemove_preserves (t : FdTable) (k : Int) (hk : fdSafe k) :
    preserved012 t (fdRemove t k) := by
  have hne : ∀ j : Int, 0 ≤ j → j ≤ 2 → fdLookup (fdRemove t k) j = fdLookup t j := by
    intro j h0 h2
    rw [fdLookup_fdRemove]
    rcases hk with hk | hk
    · rw [if_neg (by omega)]
    · rw [if_neg (by omega)]
  exact ⟨hne 0 (by norm_num) (by norm_num), hne 1 (by norm_num) (by norm_num),
    hne 2 (by norm_num) (by norm_num)⟩

/-- With 0, 1 and 2 open, descriptor allocation returns at least 3. -/
theorem allocFd_safe (t : FdTable) (h : stdOpen t) : 3 ≤ allocFd t := by
  unfold allocFd
  rcases hf : (List.range (t.entries.length + 1)).find?
      (fun n => (fdLookup t (Int.ofNat n)).isNone) with _ | n
  · simp only [hf]
    rw [Int.ofNat_eq_natCast]
    omega
  · simp only [hf]
    have hpred := List.find?_some hf
    simp only [decide_eq_true_eq, Option.isNone_iff_eq_none] at hpred
    have hn3 : 3 ≤ n := by
      by_contra hlt
      push_neg at hlt
      interval_cases n <;> simp_all [stdOpen]
    rw [Int.ofNat_eq_natCast]
    omega

/-- A successful `close` of a safe descriptor leaves 0/1/2 alone. -/
theorem closeF_preserves (t t1 : FdTable) (fd : Int) (h : closeF t fd = some t1)
    (hk : fdSafe fd) : preserved012 t t1 := by
  unfold closeF at h
  rcases hl : fdLookup t fd with _ | f
  · rw [hl] at h; simp at h
  · rw [hl] at h
    simp at h
    rw [← h]
    exact fdRemove_preserves t fd hk

/-- A successful `dup2` onto a safe descriptor leaves 0/1/2 alone. -/
theorem dup2F_preserves (t t1 : FdTable) (src dst : Int) (h : dup2F t src dst = some t1)
    (hd : fdSafe dst) : preserved012 t t1 := by
  unfold dup2F at h
  by_cases hneg : dst < 0
  · simp [hneg] at h
  · simp only [hneg, if_false, ite_false] at h
    rcases hl : fdLookup t src with _ | f
    · rw [hl] at h; simp at h
    · rw [hl] at h
      simp at h
      rw [← h]
      exact fdSet_preserves t dst f hd

/-- A successful `dup` allocates outside the standard streams and
leaves them alone. -/
theorem dupF_props (t : FdTable) (src fd : Int) (t1 : FdTable)
    (h : dupF t src = some (fd, t1)) (hstd : stdOpen t) :
    3 ≤ fd ∧ preserved012 t t1 := by
  unfold dupF at h
  rcases hl : fdLookup t src with _ | f
  · rw [hl] at h; simp at h
  · rw [hl] at h
    simp at h
    obtain ⟨hfd, ht⟩ := h
    have ha := allocFd_safe t hstd
    constructor
    · omega
    · rw [← ht]
      exact fdSet_preserves t (allocFd t) f (Or.inr ha)

/-- A successful `openF` allocates outside the standard streams and
leaves them alone. -/
theorem openF_preserves (env : RedirEnv) (t : FdTable) (name : String) (fd : Int)
    (t1 : FdTable) (h : openF env t name = some (fd, t1)) (hstd : stdOpen t) :
    3 ≤ fd ∧ preserved012 t t1 := by
  have ha := allocFd_safe t hstd
  obtain ⟨hfd, hl0⟩ := fdLookup_openF env t name fd t1 h 0
  obtain ⟨_, hl1⟩ := fdLookup_openF env t name fd t1 h 1
  obtain ⟨_, hl2⟩ := fdLookup_openF env t name fd t1 h 2
  have hfd3 : 3 ≤ fd := by omega
  refine ⟨hfd3, ?_, ?_, ?_⟩
  · rw [hl0, if_neg (by omega)]
  · rw [hl1, if_neg (by omega)]
  · rw [hl2, if_neg (by omega)]

/-- A successful `move_fd` between safe descriptors leaves 0/1/2 alone. -/
theorem move_fd_preserves (t t1 : FdTable) (src dst : Int) (h : move_fd t src dst = some t1)
    (hs : fdSafe src) (hd : fdSafe dst) : preserved012 t t1 := by
  unfold move_fd at h
  by_cases heq : src = dst
  · simp [heq] at h
    rw [← h]
    exact preserved012_refl _
  · simp only [heq, if_false, ite_false] at h
    rcases hd2 : dup2F t src dst with _ | t2
    · rw [hd2] at h; simp at h
    · rw [hd2] at h
      simp only [] at h
      rcases hc : closeF t2 src with _ | t3
      · rw [hc] at h
        simp at h
      · rw [hc] at h
        simp at h
        rw [← h]
        exact preserved012_trans _ _ _ (dup2F_preserves _ _ _ _ hd2 hd)
          (closeF_preserves _ _ _ hc hs)

/-- Lemma: `closeRec` leaves 0/1/2 alone and keeps the records safe. -/
theorem closeRec_preserves (n : Int) :
    ∀ (l : List BuiltinRedir) (t t1 : FdTable) (l1 : List BuiltinRedir),
      closeRec t n l = some (t1, l1) → recsSafe l →
      preserved012 t t1 ∧ recsSafe l1 := by
  intro l
  induction l with
  | nil => intro t t1 l1 h; simp [closeRec] at h
  | cons rec rest ih =>
    intro t t1 l1 h hs
    by_cases hpf : rec.pseudofd = n
    · simp [closeRec, hpf] at h
      obtain ⟨ht, hl⟩ := h
      constructor
      · rw [← ht]
        exact fdRemove_preserves t rec.realfd (hs rec (List.mem_cons_self _ _))
      · rw [← hl]
        intro b hb
        rcases List.mem_cons.mp hb with h1 | h1
        · rw [h1]
          exact hs rec (List.mem_cons_self _ _)
        · exact hs b (List.mem_cons_of_mem _ h1)
    · rcases hrc : closeRec t n rest with _ | ⟨t2, rest2⟩
      · simp [closeRec, hpf, hrc] at h
      · simp [closeRec, hpf, hrc] at h
        obtain ⟨ht, hl⟩ := h
        obtain ⟨hp, hr⟩ := ih t t2 rest2 hrc (fun b hb => hs b (List.mem_cons_of_mem _ hb))
        constructor
        · rw [← ht]; exact hp
        · rw [← hl]
          intro b hb
          rcases List.mem_cons.mp hb with h1 | h1
          · rw [h1]
            exact hs rec (List.mem_cons_self _ _)
          · exact hr b h1

/-- A successful in-place duplication onto an existing record leaves
0/1/2 alone. -/
theorem dupExisting_preserves (src n : Int) :
    ∀ (l : List BuiltinRedir) (t t1 : FdTable),
      dupExisting t src n l = .dupOk t1 → recsSafe l → preserved012 t t1 := by
  intro l
  induction l with
  | nil => intro t t1 h; simp [dupExisting] at h
  | cons rec rest ih =>
    intro t t1 h hs
    by_cases hpf : rec.pseudofd = n
    · rcases hd : dup2F t src rec.realfd with _ | t2
      · simp [dupExisting, hpf, hd] at h
      · simp [dupExisting, hpf, hd] at h
        rw [← h]
        exact dup2F_preserves _ _ _ _ hd (hs rec (List.mem_cons_self _ _))
    · simp only [dupExisting, hpf, ite_false, if_false] at h
      exact ih t t1 (by simpa [hpf] using h) (fun b hb => hs b (List.mem_cons_of_mem _ hb))

/-- A successful move onto an existing record leaves 0/1/2 alone. -/
theorem moveExisting_mvOk_preserves (fd n : Int) :
    ∀ (l : List BuiltinRedir) (t t1 : FdTable),
      moveExisting t fd n l = .mvOk t1 → recsSafe l → fdSafe fd → preserved012 t t1 := by
  intro l
  induction l with
  | nil => intro t t1 h; simp [moveExisting] at h
  | cons rec rest ih =>
    intro t t1 h hs hf
    by_cases hpf : rec.pseudofd = n
    · rcases hm : move_fd t fd rec.realfd with _ | t2
      · simp [moveExisting, hpf, hm] at h
      · simp [moveExisting, hpf, hm] at h
        rw [← h]
        exact move_fd_preserves _ _ _ _ hm hf (hs rec (List.mem_cons_self _ _))
    · simp only [moveExisting, hpf, ite_false, if_false] at h
      exact ih t t1 (by simpa [hpf] using h) (fun b hb => hs b (List.mem_cons_of_mem _ hb)) hf

/-- A failed move returns the table unchanged. -/
theorem moveExisting_mvErr_eq (fd n : Int) :
    ∀ (l : List BuiltinRedir) (t t1 : FdTable),
      moveExisting t fd n l = .mvErr t1 → t1 = t := by
  intro l
  induction l with
  | nil => intro t t1 h; simp [moveExisting] at h
  | cons rec rest ih =>
    intro t t1 h
    by_cases hpf : rec.pseudofd = n
    · rcases hm : move_fd t fd rec.realfd with _ | t2
      · simp [moveExisting, hpf, hm] at h
        exact h.symm
      · simp [moveExisting, hpf, hm] at h
    · simp only [moveExisting, hpf, ite_false, if_false] at h
      exact ih t t1 (by simpa [hpf] using h)

/-- The file-open branch of the builtin path preserves the 0/1/2
lookups and record safety. -/
theorem fileOpenBuiltin_inv (env : RedirEnv) (t0 : FdTable) (st : BRState) (r : IoRedir)
    (hstd : stdOpen t0) (hp : preserved012 t0 st.t) (hr : recsSafe st.recs) :
    preserved012 t0 (fileOpenBuiltin env st r).t ∧
      recsSafe (fileOpenBuiltin env st r).recs := by
  unfold fileOpenBuiltin
  rcases ho : openF env st.t r.filename with _ | ⟨fd, t1⟩
  · simp only [ho]
    exact ⟨hp, hr⟩
  · simp only [ho]
    obtain ⟨hfd3, hp1⟩ :=
      openF_preserves env st.t r.filename fd t1 ho (stdOpen_of_preserved t0 st.t hp hstd)
    cases hme : moveExisting t1 fd r.io_number st.recs with
    | mvOk t2 =>
      simp only [hme]
      exact ⟨preserved012_trans _ _ _ hp (preserved012_trans _ _ _ hp1
        (moveExisting_mvOk_preserves fd r.io_number st.recs t1 t2 hme hr (Or.inr hfd3))), hr⟩
    | mvErr t2 =>
      simp only [hme]
      have := moveExisting_mvErr_eq fd r.io_number st.recs t1 t2 hme
      rw [this]
      exact ⟨preserved012_trans _ _ _ hp hp1, hr⟩
    | mvNone =>
      simp only [hme]
      refine ⟨preserved012_trans _ _ _ hp hp1, ?_⟩
      intro b hb
      rcases List.mem_cons.mp hb with h1 | h1
      · rw [h1]
        exact Or.inr hfd3
      · exact hr b h1

/-- Every builtin redirection step preserves the 0/1/2 lookups and
record safety. -/
theorem builtinRedirStep_inv (env : RedirEnv) (t0 : FdTable) (st : BRState) (r : IoRedir)
    (hstd : stdOpen t0) (hp : preserved012 t0 st.t) (hr : recsSafe st.recs) :
    preserved012 t0 (builtinRedirStep env st r).t ∧
      recsSafe (builtinRedirStep env st r).recs := by
  unfold builtinRedirStep
  split
  · split
    · rcases hrc : closeRec st.t r.io_number st.recs with _ | ⟨t1, l1⟩
      · simp only [hrc]
        refine ⟨hp, ?_⟩
        intro b hb
        rcases List.mem_cons.mp hb with h1 | h1
        · rw [h1]
          exact Or.inl (by norm_num)
        · exact hr b h1
      · simp only [hrc]
        obtain ⟨hp1, hr1⟩ := closeRec_preserves r.io_number st.recs st.t t1 l1 hrc hr
        exact ⟨preserved012_trans _ _ _ hp hp1, hr1⟩
    · split
      · rcases hrs : resolveSrc st.recs (strtol10 r.filename.data).1 with _ | src
        · simp only [hrs]
          exact ⟨hp, hr⟩
        · simp only [hrs]
          cases hde : dupExisting st.t (toCInt src) r.io_number st.recs with
          | dupOk t1 =>
            simp only [hde]
            exact ⟨preserved012_trans _ _ _ hp
              (dupExisting_preserves (toCInt src) r.io_number st.recs st.t t1 hde hr), hr⟩
          | dupErr =>
            simp only [hde]
            exact ⟨hp, hr⟩
          | dupNone =>
            simp only [hde]
            rcases hdf : dupF st.t (toCInt src) with _ | ⟨fd, t1⟩
            · simp only [hdf]
              refine ⟨hp, ?_⟩
              intro b hb
              rcases List.mem_cons.mp hb with h1 | h1
              · rw [h1]
                exact Or.inl (by norm_num)
              · exact hr b h1
            · simp only [hdf]
              obtain ⟨hfd3, hp1⟩ :=
                dupF_props st.t (toCInt src) fd t1 hdf (stdOpen_of_preserved t0 st.t hp hstd)
              refine ⟨preserved012_trans _ _ _ hp hp1, ?_⟩
              intro b hb
              rcases List.mem_cons.mp hb with h1 | h1
              · rw [h1]
                exact Or.inr hfd3
              · exact hr b h1
      · exact fileOpenBuiltin_inv env t0 st r hstd hp hr
  · exact fileOpenBuiltin_inv env t0 st r hstd hp hr

/-- The invariant holds through a whole builtin redirection sequence. -/
theorem do_builtin_inv (env : RedirEnv) (t0 : FdTable) (rs : List IoRedir) :
    ∀ st : BRState, stdOpen t0 → preserved012 t0 st.t → recsSafe st.recs →
      preserved012 t0 (do_builtin_io_redirects env rs st).t ∧
        recsSafe (do_builtin_io_redirects env rs st).recs := by
  induction rs with
  | nil => intro st _ hp hr; exact ⟨hp, hr⟩
  | cons r rest ih =>
    intro st hstd hp hr
    obtain ⟨hp1, hr1⟩ := builtinRedirStep_inv env t0 st r hstd hp hr
    exact ih _ hstd hp1 hr1

/-- Cleanup closes only the records' (safe) descriptors. -/
theorem cleanupRecs_preserves (l : List BuiltinRedir) :
    ∀ t : FdTable, recsSafe l → preserved012 t (cleanupRecs t l) := by
  induction l with
  | nil => intro t _; exact preserved012_refl t
  | cons rec rest ih =>
    intro t hs
    exact preserved012_trans _ _ _
      (fdRemove_preserves t rec.realfd (hs rec (List.mem_cons_self _ _)))
      (ih _ (fun b hb => hs b (List.mem_cons_of_mem _ hb)))

/-- Cleanup never re-opens a descriptor. -/
theorem cleanupRecs_none_mono (l : List BuiltinRedir) :
    ∀ (t : FdTable) (j : Int), fdLookup t j = none →
      fdLookup (cleanupRecs t l) j = none := by
  induction l with
  | nil => intro t j h; exact h
  | cons rec rest ih =>
    intro t j h
    refine ih _ j ?_
    rw [fdLookup_fdRemove]
    by_cases hj : j = rec.realfd
    · rw [if_pos hj]
    · rw [if_neg hj]
      exact h

/-- Cleanup closes every record's real descriptor. -/
theorem cleanupRecs_removes (l : List BuiltinRedir) :
    ∀ (t : FdTable) (rec : BuiltinRedir), rec ∈ l →
      fdLookup (cleanupRecs t l) rec.realfd = none := by
  induction l with
  | nil => intro t rec h; simp at h
  | cons r0 rest ih =>
    intro t rec h
    rcases List.mem_cons.mp h with h1 | h1
    · refine cleanupRecs_none_mono rest _ _ ?_
      rw [h1, fdLookup_fdRemove, if_pos rfl]
    · exact ih _ rec h1

/-- C9 (confirmed): for any builtin invocation — the forked and the
in-process cases run the same code — after the builtin returns, every
virtual redirection record's real descriptor has been closed and the
record list freed, whatever the builtin's result, and the shell's real
descriptors 0, 1 and 2 are exactly what they were before the call.
Hypotheses: the shell's standard streams are open and the seeded pipe
ends (as all pipe descriptors in a shell whose 0/1/2 are open) are
descriptors above 2. -/
theorem c9_builtin_restores_descriptors (env : RedirEnv) (cmd : Command)
    (upstream downstream : Option Int) (bres : Int) (t0 : FdTable)
    (hstd : stdOpen t0)
    (hup : ∀ u, upstream = some u → 3 ≤ u)
    (hdown : ∀ d, downstream = some d → 3 ≤ d) :
    (fdLookup (run_builtin env cmd upstream downstream bres t0).t 0 = fdLookup t0 0 ∧
     fdLookup (run_builtin env cmd upstream downstream bres t0).t 1 = fdLookup t0 1 ∧
     fdLookup (run_builtin env cmd upstream downstream bres t0).t 2 = fdLookup t0 2) ∧
    (∀ rec ∈ (run_builtin env cmd upstream downstream bres t0).freed,
      fdLookup (run_builtin env cmd upstream downstream bres t0).t rec.realfd = none) := by
  have hseed : recsSafe (seedRecs upstream downstream) := by
    intro b hb
    rcases hdw : downstream with _ | d <;> rcases hupw : upstream with _ | u <;>
      rw [hdw, hupw] at hb
    · simp [seedRecs] at hb
    · simp [seedRecs] at hb
      rw [hb]
      exact Or.inr (hup u hupw)
    · simp [seedRecs] at hb
      rw [hb]
      exact Or.inr (hdown d hdw)
    · simp [seedRecs] at hb
      rcases hb with hb | hb
      · rw [hb]
        exact Or.inr (hdown d hdw)
      · rw [hb]
        exact Or.inr (hup u hupw)
  obtain ⟨hp1, hr1⟩ := do_builtin_inv env t0 cmd.ioRedirs
    ⟨t0, seedRecs upstream downstream, 0⟩ hstd (preserved012_refl t0) hseed
  have hpc := cleanupRecs_preserves
    (do_builtin_io_redirects env cmd.ioRedirs ⟨t0, seedRecs upstream downstream, 0⟩).recs
    (do_builtin_io_redirects env cmd.ioRedirs ⟨t0, seedRecs upstream downstream, 0⟩).t hr1
  have hfinal := preserved012_trans _ _ _ hp1 hpc
  constructor
  · exact ⟨hfinal.1, hfinal.2.1, hfinal.2.2⟩
  · intro rec hrec
    exact cleanupRecs_removes _ _ rec hrec

/-- A builtin command with one `> f` redirection. -/
def cmd9 : Command := ⟨["cd"], [], [⟨.opGreat, 1, "f"⟩], .semi, true⟩

/-- Witness for C9: a concrete in-process builtin invocation over the
standard streams leaves 0, 1, 2 untouched and closes all records. -/
theorem c9_builtin_restores_descriptors_witness :
    (fdLookup (run_builtin env6 cmd9 none none 0 t6).t 0 = fdLookup t6 0 ∧
     fdLookup (run_builtin env6 cmd9 none none 0 t6).t 1 = fdLookup t6 1 ∧
     fdLookup (run_builtin env6 cmd9 none none 0 t6).t 2 = fdLookup t6 2) ∧
    (∀ rec ∈ (run_builtin env6 cmd9 none none 0 t6).freed,
      fdLookup (run_builtin env6 cmd9 none none 0 t6).t rec.realfd = none) :=
  c9_builtin_restores_descriptors env6 cmd9 none none 0 t6 ⟨rfl, rfl, rfl⟩
    (fun u h => by simp at h) (fun d h => by simp at h)

/-! ## C3 — the background reap blocks and is not scoped to the job -/

/-- Any call recorded by the inner background loop is either inherited
or is the literal `waitpid(0, ..., 0)` call the source makes. -/
theorem bgInner_calls_shape (env : BgEnv) (jid pgid : Int) :
    ∀ (evs : List BgRes) (js : JobsState) (calls : List WaitCall) (msgs : List BgMsg)
      out rest js1 calls1 msgs1,
      bgInner env jid pgid evs js calls msgs = some (out, rest, js1, calls1, msgs1) →
      ∀ c ∈ calls1, c ∈ calls ∨ c = ⟨0, 0⟩ := by
  intro evs
  induction evs with
  | nil => intro js calls msgs out rest js1 calls1 msgs1 h; simp [bgInner] at h
  | cons e tail ih =>
    intro js calls msgs out rest js1 calls1 msgs1 h c hc
    cases e with
    | gotZero =>
      simp [bgInner] at h
      rw [← h.2.2.2.1] at hc
      simpa using List.mem_append.mp hc
    | echild =>
      rcases hgs : jobsGetStatus js jid with _ | s
      · simp [bgInner, hgs] at h
        rw [← h.2.2.2.1] at hc
        simpa using List.mem_append.mp hc
      · simp [bgInner, hgs] at h
        rw [← h.2.2.2.1] at hc
        simpa using List.mem_append.mp hc
    | errOther =>
      simp [bgInner] at h
      rw [← h.2.2.2.1] at hc
      simpa using List.mem_append.mp hc
    | reaped s =>
      by_cases hok : env.setStatusOk
      · cases s with
        | stopped sig =>
          simp [bgInner, hok] at h
          rw [← h.2.2.2.1] at hc
          simpa using List.mem_append.mp hc
        | exited code =>
          simp [bgInner, hok] at h
          rcases ih _ _ _ _ _ _ _ _ h c hc with h1 | h1
          · simpa using List.mem_append.mp h1
          · exact Or.inr h1
        | signaled sig =>
          simp [bgInner, hok] at h
          rcases ih _ _ _ _ _ _ _ _ h c hc with h1 | h1
          · simpa using List.mem_append.mp h1
          · exact Or.inr h1
      · simp [bgInner, hok] at h
        rw [← h.2.2.2.1] at hc
        simpa using List.mem_append.mp hc

/-- Any call recorded by the background reap is either inherited or the
literal `waitpid(0, ..., 0)` call. -/
theorem bgOuter_calls_shape (env : BgEnv) :
    ∀ (fuel i : Nat) (evs : List BgRes) (js : JobsState) (calls : List WaitCall)
      (msgs : List BgMsg) r js1 calls1 msgs1,
      bgOuter env fuel i evs js calls msgs = some (r, js1, calls1, msgs1) →
      ∀ c ∈ calls1, c ∈ calls ∨ c = ⟨0, 0⟩ := by
  intro fuel
  induction fuel with
  | zero => intro i evs js calls msgs r js1 calls1 msgs1 h; simp [bgOuter] at h
  | succ fuel ih =>
    intro i evs js calls msgs r js1 calls1 msgs1 h c hc
    rw [bgOuter] at h
    rcases hj : js.jobs[i]? with _ | job
    · rw [hj] at h
      simp at h
      rw [← h.2.2.1] at hc
      exact Or.inl hc
    · rw [hj] at h
      simp only [] at h
      rcases hbi : bgInner env job.jid job.pgid evs js calls msgs with _ |
          ⟨out, rest, js2, calls2, msgs2⟩
      · rw [hbi] at h; simp at h
      · rw [hbi] at h
        cases out with
        | innerFail =>
          simp at h
          rw [← h.2.2.1] at hc
          exact bgInner_calls_shape env job.jid job.pgid evs js calls msgs _ _ _ _ _ hbi c hc
        | innerBreak =>
          simp only [] at h
          rcases ih _ _ _ _ _ _ _ _ _ h c hc with h1 | h1
          · exact bgInner_calls_shape env job.jid job.pgid evs js calls msgs _ _ _ _ _ hbi c h1
          · exact Or.inr h1
        | innerRemoved =>
          simp only [] at h
          rcases ih _ _ _ _ _ _ _ _ _ h c hc with h1 | h1
          · exact bgInner_calls_shape env job.jid job.pgid evs js calls msgs _ _ _ _ _ hbi c h1
          · exact Or.inr h1

/-- C3: the source's background reap performs `waitpid(0, &status, 0)`:
every wait call it makes has pid argument `0` (any child of the
*shell's own* process group) and options `0` — a blocking wait without
`WNOHANG`, not scoped to the job's process group `-pgid`.  This
contradicts the claim (and the source's own `XXX make sure to do a
nonblocking wait!` comment). -/
theorem c3_bg_wait_blocking_unscoped (env : BgEnv) (js : JobsState)
    (r : Int) (js1 : JobsState) (calls : List WaitCall) (msgs : List BgMsg)
    (h : wait_on_bg_jobs env js = some (r, js1, calls, msgs)) :
    ∀ c ∈ calls, c.pidArg = 0 ∧ c.options = 0 ∧ c.nonBlocking = false ∧
      (∀ job ∈ js.jobs, 0 < job.pgid → c.pidArg ≠ -job.pgid) := by
  intro c hc
  rcases bgOuter_calls_shape env _ 0 env.events js [] [] r js1 calls msgs h c hc with h1 | h1
  · simp at h1
  · rw [h1]
    refine ⟨rfl, rfl, by decide, ?_⟩
    intro job _ hpg
    simp only [WaitCall.mk.injEq]
    omega

/-- Environment for the background-reap run: one `ECHILD` answer. -/
def bgEnv3 : BgEnv := ⟨true, [.echild]⟩

/-- One live background job: job id 1, process group 200, which has
recorded status "exited 0". -/
def js3 : JobsState := ⟨[⟨1, 200⟩], [(1, .exited 0)]⟩

/-- Witness for C3: on the concrete run the single wait call is
`waitpid(0, ..., 0)` — blocking and not `-200`-scoped. -/
theorem c3_bg_wait_blocking_unscoped_witness :
    (⟨0, 0⟩ : WaitCall).pidArg = 0 ∧ (⟨0, 0⟩ : WaitCall).options = 0 ∧
      (⟨0, 0⟩ : WaitCall).nonBlocking = false ∧
      (∀ job ∈ js3.jobs, 0 < job.pgid → (⟨0, 0⟩ : WaitCall).pidArg ≠ -job.pgid) :=
  c3_bg_wait_blocking_unscoped bgEnv3 js3 0 ⟨[], [(1, .exited 0)]⟩ [⟨0, 0⟩] [.done 1]
    (by decide) ⟨0, 0⟩ (by decide)

/-! ## C4 — terminal restoration on every exit path of the foreground wait -/

/-- When interactive and the restoring `tcsetpgrp` succeeds, the common
exit code of `out:`/`err:` leaves the terminal with the shell. -/
theorem fgFinish_term (env : FgEnv) (shellPgid r : Int) (st : FgState)
    (htc : env.tcsetOk shellPgid = true) :
    (fgFinish env true shellPgid r st).2.term = shellPgid := by
  simp [fgFinish, htc]

/-- Lemma: `fgFinish` only touches the terminal field. -/
theorem fgFinish_fields (env : FgEnv) (interactive : Bool) (shellPgid r : Int)
    (st : FgState) :
    (fgFinish env interactive shellPgid r st).1 = r ∧
    (fgFinish env interactive shellPgid r st).2.recorded = st.recorded ∧
    (fgFinish env interactive shellPgid r st).2.jobPresent = st.jobPresent ∧
    (fgFinish env interactive shellPgid r st).2.pstatus = st.pstatus := by
  unfold fgFinish
  split
  · split
    · exact ⟨rfl, rfl, rfl, rfl⟩
    · exact ⟨rfl, rfl, rfl, rfl⟩
  · exact ⟨rfl, rfl, rfl, rfl⟩

/-- Exiting through a terminal branch of the wait loop restores the
terminal. -/
theorem fgLoop_finish_term {env : FgEnv} {shellPgid r0 r : Int} {st0 st1 : FgState}
    (h : fgFinish env true shellPgid r0 st0 = (r, st1))
    (htc : env.tcsetOk shellPgid = true) : st1.term = shellPgid := by
  have h2 := congrArg Prod.snd h
  simp only [] at h2
  rw [← h2]
  exact fgFinish_term env shellPgid r0 st0 htc

/-- However the wait loop exits, the terminal ends with the shell. -/
theorem fgLoop_term (env : FgEnv) (shellPgid : Int)
    (htc : env.tcsetOk shellPgid = true) :
    ∀ (evs : List WaitRes) (st : FgState) (r : Int) (st1 : FgState),
      fgLoop env true shellPgid evs st = some (r, st1) → st1.term = shellPgid := by
  intro evs
  induction evs with
  | nil => intro st r st1 h; simp [fgLoop] at h
  | cons e tail ih =>
    intro st r st1 h
    cases e with
    | reaped s =>
      by_cases hok : env.setStatusOk
      · cases s with
        | stopped sig =>
          simp [fgLoop, hok] at h
          exact fgLoop_finish_term h htc
        | exited code =>
          simp [fgLoop, hok] at h
          exact ih _ _ _ h
        | signaled sig =>
          simp [fgLoop, hok] at h
          exact ih _ _ _ h
      · simp [fgLoop, hok] at h
        exact fgLoop_finish_term h htc
    | echild =>
      rcases hr : st.recorded with _ | s
      · simp [fgLoop, hr] at h
        exact fgLoop_finish_term h htc
      · simp [fgLoop, hr] at h
        exact fgLoop_finish_term h htc
    | eintr =>
      simp [fgLoop] at h
      exact ih _ _ _ h
    | errOther =>
      simp [fgLoop] at h
      exact fgLoop_finish_term h htc

/-- C4 (confirmed): on every exit path of `wait_on_fg_pgid` in an
interactive shell — early errors included — the terminal's foreground
group at return is the shell's own group, provided the shell held the
terminal at entry and restoring `tcsetpgrp` toward the shell's group
succeeds.  Paths before the handoff return with the terminal untouched
(still the shell's); every path after the handoff runs the unconditional
restoration. -/
theorem c4_fg_wait_restores_terminal (env : FgEnv) (shellPgid pgid : Int)
    (st : FgState) (r : Int) (st1 : FgState)
    (hterm : st.term = shellPgid)
    (htc : env.tcsetOk shellPgid = true)
    (h : wait_on_fg_pgid env true shellPgid pgid st = some (r, st1)) :
    st1.term = shellPgid := by
  unfold wait_on_fg_pgid at h
  by_cases h1 : pgid < 0
  · simp [h1] at h
    rw [← h.2]
    exact hterm
  · rw [if_neg h1] at h
    by_cases h2 : env.jidOf pgid < 0
    · simp [h2] at h
      rw [← h.2]
      exact hterm
    · rw [if_neg h2] at h
      cases hk : env.killRes with
      | killEsrch =>
        rw [hk] at h
        simp at h
        rw [← h.2]
        exact hterm
      | killEperm =>
        rw [hk] at h
        simp at h
        rw [← h.2]
        exact hterm
      | killErrOther =>
        rw [hk] at h
        simp at h
        rw [← h.2]
        exact hterm
      | killOk =>
        rw [hk] at h
        simp only [if_true, ite_true] at h
        by_cases h3 : env.tcsetOk pgid
        · rw [if_pos h3] at h
          exact fgLoop_term env shellPgid htc env.events _ r st1 h
        · rw [if_neg h3] at h
          simp at h
          rw [← h.2]
          exact hterm

/-- Environment for the foreground-wait runs: job id 7, `kill` and all
`tcsetpgrp` calls succeed, job-table updates succeed, and the group's
single process exits with status 3 before `ECHILD`. -/
def fgEnv45 : FgEnv :=
  ⟨fun _ => 7, .killOk, fun _ => true, true, true, [.reaped (.exited 3), .echild]⟩

/-- Initial shell state for the foreground-wait runs: terminal owned by
group 99 (the shell), nothing recorded, job present, status 0. -/
def fgSt45 : FgState := ⟨99, none, true, 0⟩

/-- Witness for C4: the concrete run returns with the terminal back at
the shell's group 99. -/
theorem c4_fg_wait_restores_terminal_witness :
    (⟨99, some (.exited 3), false, 3⟩ : FgState).term = 99 :=
  c4_fg_wait_restores_terminal fgEnv45 99 200 fgSt45 0
    ⟨99, some (.exited 3), false, 3⟩ rfl rfl (by decide)

/-! ## C5 — the ECHILD path of the foreground wait -/

/-- The job table's recorded status after a run of `waitpid` answers:
each reaped status overwrites the previous record. -/
def lastRecorded : List WaitRes → Option WStatus → Option WStatus
  | [], init => init
  | .reaped s :: rest, _ => lastRecorded rest (some s)
  | _ :: rest, init => lastRecorded rest init

/-- Translation of a recorded wait status into the shell's exit-status
convention: the exit code itself for a normal exit, 128 plus the signal
number for a signalled termination (a stopped status would leave the
variable unchanged). -/
def statusToShell (s : WStatus) (prev : Int) : Int :=
  match s with
  | .exited code => (code : Int)
  | .signaled sig => 128 + (sig : Int)
  | .stopped _ => prev

/-- Running the wait loop on a stream of retries and non-stop reaps
followed by `ECHILD` lands in the normal-termination branch: the last
recorded status is retrieved, translated, the entry removed, and the
loop finishes with retval 0 through the restoring exit code. -/
theorem fgLoop_echild_run (env : FgEnv) (interactive : Bool) (shellPgid : Int)
    (hset : env.setStatusOk = true) (hrem : env.removeOk = true) :
    ∀ (pre rest : List WaitRes) (st : FgState) (s : WStatus),
      (∀ e ∈ pre, e = .eintr ∨ ∃ s', e = .reaped s' ∧ ∀ g, s' ≠ .stopped g) →
      lastRecorded pre st.recorded = some s →
      fgLoop env interactive shellPgid (pre ++ .echild :: rest) st =
        some (fgFinish env interactive shellPgid 0
          ⟨st.term, some s, false, statusToShell s st.pstatus⟩) := by
  intro pre
  induction pre with
  | nil =>
    intro rest st s hpre hlast
    simp [lastRecorded] at hlast
    cases s with
    | exited code => simp [fgLoop, hlast, hrem, statusToShell]
    | signaled sig => simp [fgLoop, hlast, hrem, statusToShell]
    | stopped sig => simp [fgLoop, hlast, hrem, statusToShell]
  | cons e pre' ih =>
    intro rest st s hpre hlast
    rcases hpre e (List.mem_cons_self _ _) with he | ⟨s', he, hns⟩
    · subst he
      rw [List.cons_append]
      have hgoal := ih rest st s
        (fun x hx => hpre x (List.mem_cons_of_mem _ hx))
        (by simpa [lastRecorded] using hlast)
      simpa [fgLoop] using hgoal
    · subst he
      cases s' with
      | stopped g => exact absurd rfl (hns g)
      | exited c =>
        rw [List.cons_append]
        have hgoal := ih rest { st with recorded := some (.exited c) } s
          (fun x hx => hpre x (List.mem_cons_of_mem _ hx))
          (by simpa [lastRecorded] using hlast)
        simpa [fgLoop, hset] using hgoal
      | signaled g =>
        rw [List.cons_append]
        have hgoal := ih rest { st with recorded := some (.signaled g) } s
          (fun x hx => hpre x (List.mem_cons_of_mem _ hx))
          (by simpa [lastRecorded] using hlast)
        simpa [fgLoop, hset] using hgoal

/-- C5 (confirmed): when the blocking wait reports `ECHILD`, the
foreground wait retrieves the job table's last-recorded status,
translates it into the shell's exit-status variable (exit code for a
normal exit, 128 + signal for a signalled one), removes the job entry,
and finishes successfully (retval 0). -/
theorem c5_fg_wait_echild_path (env : FgEnv) (interactive : Bool) (shellPgid pgid : Int)
    (st : FgState) (pre rest : List WaitRes) (s : WStatus)
    (hev : env.events = pre ++ .echild :: rest)
    (hpre : ∀ e ∈ pre, e = .eintr ∨ ∃ s', e = .reaped s' ∧ ∀ g, s' ≠ .stopped g)
    (hset : env.setStatusOk = true) (hrem : env.removeOk = true)
    (hlast : lastRecorded pre st.recorded = some s)
    (hpg : ¬pgid < 0) (hjid : ¬env.jidOf pgid < 0) (hkill : env.killRes = .killOk)
    (htcp : interactive = true → env.tcsetOk pgid = true) :
    ∃ out : Int × FgState, wait_on_fg_pgid env interactive shellPgid pgid st = some out ∧
      out.1 = 0 ∧ out.2.recorded = some s ∧ out.2.jobPresent = false ∧
      out.2.pstatus = statusToShell s st.pstatus := by
  unfold wait_on_fg_pgid
  rw [if_neg hpg, if_neg hjid, hkill]
  simp only []
  cases hi : interactive with
  | false =>
    rw [if_neg (by simp), hev,
      fgLoop_echild_run env false shellPgid hset hrem pre rest st s hpre hlast]
    refine ⟨_, rfl, ?_, ?_, ?_, ?_⟩
    · exact (fgFinish_fields env false shellPgid 0 _).1
    · exact (fgFinish_fields env false shellPgid 0 _).2.1
    · exact (fgFinish_fields env false shellPgid 0 _).2.2.1
    · exact (fgFinish_fields env false shellPgid 0 _).2.2.2
  | true =>
    rw [if_pos rfl, if_pos (htcp hi), hev,
      fgLoop_echild_run env true shellPgid hset hrem pre rest
        { st with term := pgid } s hpre hlast]
    refine ⟨_, rfl, ?_, ?_, ?_, ?_⟩
    · exact (fgFinish_fields env true shellPgid 0 _).1
    · exact (fgFinish_fields env true shellPgid 0 _).2.1
    · exact (fgFinish_fields env true shellPgid 0 _).2.2.1
    · exact (fgFinish_fields env true shellPgid 0 _).2.2.2

/-- Witness for C5: on the concrete run (one child exits with status 3,
then `ECHILD`) the wait finishes with retval 0, records `exited 3`,
removes the job, and sets the shell status to 3. -/
theorem c5_fg_wait_echild_path_witness :
    ∃ out : Int × FgState, wait_on_fg_pgid fgEnv45 true 99 200 fgSt45 = some out ∧
      out.1 = 0 ∧ out.2.recorded = some (.exited 3) ∧ out.2.jobPresent = false ∧
      out.2.pstatus = statusToShell (.exited 3) fgSt45.pstatus :=
  c5_fg_wait_echild_path fgEnv45 true 99 200 fgSt45 [.reaped (.exited 3)] [] (.exited 3)
    rfl
    (fun e he => by
      simp at he
      subst he
      exact Or.inr ⟨.exited 3, rfl, fun g => by simp⟩)
    rfl rfl rfl (by decide) (by decide) rfl (fun _ => rfl)

/-! ## C1 — the fork decision -/

/-- The command index an event belongs to. -/
def REvent.idx : REvent → Nat
  | .forked i _ _ => i
  | .inProcessBuiltin i => i
  | .registered i _ _ => i
  | .fgWait i _ _ => i
  | .bgNotice i _ _ => i
  | .warned i => i

/-- The events of a step, whether it continues or returns. -/
def StepRes.events : StepRes → List REvent
  | .cont _ evs => evs
  | .halt _ evs => evs

instance : Inhabited Command := ⟨⟨[], [], [], .semi, false⟩⟩

/-- Every event the parent branch after a spawn emits is either one of
the events already gathered or a wait/notice/warn event of this index —
never a `forked` or `inProcessBuiltin` event. -/
theorem afterSpawn_events (env : RunEnv) (i : Nat) (cmd : Command) (st : RState)
    (pid : Int) (evs : List REvent) :
    ∀ e ∈ (afterSpawn env i cmd st pid evs).events,
      e ∈ evs ∨ (e.idx = i ∧ (∀ p g, e ≠ .forked i p g) ∧ e ≠ .inProcessBuiltin i) := by
  intro e he
  unfold afterSpawn at he
  cases hop : cmd.ctrlOp with
  | semi =>
    simp only [hop, reduceCtorEq, if_pos rfl] at he
    by_cases hres : env.fgWaitRes i < 0
    · rw [if_pos hres] at he
      by_cases hps : env.statusAfterWait i ≠ 127
      · rw [if_pos hps] at he
        simp only [StepRes.events] at he
        rcases List.mem_append.mp he with h1 | h1
        · exact Or.inl h1
        · simp at h1
          subst h1
          exact Or.inr ⟨rfl, by simp, by simp⟩
      · rw [if_neg hps] at he
        simp only [StepRes.events] at he
        rcases List.mem_append.mp he with h1 | h1
        · rcases List.mem_append.mp h1 with h2 | h2
          · exact Or.inl h2
          · simp at h2
            subst h2
            exact Or.inr ⟨rfl, by simp, by simp⟩
        · simp at h1
          subst h1
          exact Or.inr ⟨rfl, by simp, by simp⟩
    · rw [if_neg hres] at he
      simp only [StepRes.events] at he
      rcases List.mem_append.mp he with h1 | h1
      · exact Or.inl h1
      · simp at h1
        subst h1
        exact Or.inr ⟨rfl, by simp, by simp⟩
  | amp =>
    simp only [hop, reduceCtorEq] at he
    simp only [StepRes.events] at he
    rcases List.mem_append.mp he with h1 | h1
    · exact Or.inl h1
    · simp at h1
      subst h1
      exact Or.inr ⟨rfl, by simp, by simp⟩
  | pipe =>
    simp only [hop, reduceCtorEq, StepRes.events] at he
    exact Or.inl he

/-- Every event a step emits belongs to that step's command index, a
`forked` event is emitted only for commands that fork
(`should_fork = !is_builtin || !is_fg`), and an `inProcessBuiltin`
event only for foreground builtins. -/
theorem stepCommand_events_classify (env : RunEnv) (i : Nat) (cmd : Command) (st : RState) :
    ∀ e ∈ (stepCommand env i cmd st).events,
      e.idx = i ∧
      (∀ pid g, e = .forked i pid g → ¬(cmd.isBuiltin = true ∧ cmd.ctrlOp = .semi)) ∧
      (e = .inProcessBuiltin i → cmd.isBuiltin = true ∧ cmd.ctrlOp = .semi) := by
  intro e he
  unfold stepCommand at he
  by_cases hpipe : cmd.ctrlOp = .pipe ∧ env.pipeOk i = false
  · rw [if_pos hpipe] at he
    simp [StepRes.events] at he
  · rw [if_neg hpipe] at he
    by_cases hib : cmd.isBuiltin = true ∧ cmd.ctrlOp = .semi
    · rw [if_pos hib] at he
      simp only [StepRes.events, List.mem_singleton] at he
      subst he
      exact ⟨rfl, by simp, fun _ => hib⟩
    · rw [if_neg hib] at he
      by_cases hpid : env.forkPid i < 0
      · rw [if_pos hpid] at he
        simp [StepRes.events] at he
      · rw [if_neg hpid] at he
        have hbase1 : ∀ x ∈ [REvent.forked i (env.forkPid i) st.pgid],
            x.idx = i ∧ x ≠ .inProcessBuiltin i := by
          intro x hx
          simp at hx
          subst hx
          exact ⟨rfl, by simp⟩
        have hbase2 : ∀ jid, ∀ x ∈ [REvent.forked i (env.forkPid i) st.pgid,
            REvent.registered i (env.forkPid i) jid],
            x.idx = i ∧ x ≠ .inProcessBuiltin i := by
          intro jid x hx
          simp at hx
          rcases hx with hx | hx <;> subst hx
          · exact ⟨rfl, by simp⟩
          · exact ⟨rfl, by simp⟩
        have hdone : ∀ (stx : RState) (evs : List REvent),
            (∀ x ∈ evs, x.idx = i ∧ x ≠ .inProcessBuiltin i) →
            e ∈ (afterSpawn env i cmd stx (env.forkPid i) evs).events →
            e.idx = i ∧
            (∀ pid g, e = .forked i pid g → ¬(cmd.isBuiltin = true ∧ cmd.ctrlOp = .semi)) ∧
            (e = .inProcessBuiltin i → cmd.isBuiltin = true ∧ cmd.ctrlOp = .semi) := by
          intro stx evs hb hmem
          rcases afterSpawn_events env i cmd stx (env.forkPid i) evs e hmem with h1 | ⟨hidx, _, hni⟩
          · obtain ⟨hidx, hnip⟩ := hb e h1
            exact ⟨hidx, fun p g _ => hib, fun hc => (hnip hc).elim⟩
          · exact ⟨hidx, fun p g _ => hib, fun hc => (hni hc).elim⟩
        cases hsp : env.setpgidRes i with
        | spErrOther =>
          rw [hsp] at he
          simp only [StepRes.events, List.mem_singleton] at he
          subst he
          exact ⟨rfl, fun p g _ => hib, by simp⟩
        | spOk =>
          rw [hsp] at he
          simp only [] at he
          by_cases hz : ({ st with hasPipe := cmd.ctrlOp = .pipe } : RState).pgid = 0
          · rw [if_pos hz] at he
            by_cases hj : env.jobsAdd (env.forkPid i) < 0
            · rw [if_pos hj] at he
              simp only [StepRes.events, List.mem_singleton] at he
              subst he
              exact ⟨rfl, fun p g _ => hib, by simp⟩
            · rw [if_neg hj] at he
              exact hdone _ _ (hbase2 _) he
          · rw [if_neg hz] at he
            exact hdone _ _ hbase1 he
        | spEacces =>
          rw [hsp] at he
          simp only [] at he
          by_cases hz : ({ st with hasPipe := cmd.ctrlOp = .pipe } : RState).pgid = 0
          · rw [if_pos hz] at he
            by_cases hj : env.jobsAdd (env.forkPid i) < 0
            · rw [if_pos hj] at he
              simp only [StepRes.events, List.mem_singleton] at he
              subst he
              exact ⟨rfl, fun p g _ => hib, by simp⟩
            · rw [if_neg hj] at he
              exact hdone _ _ (hbase2 _) he
          · rw [if_neg hz] at he
            exact hdone _ _ hbase1 he

/-- Every event of a run comes from the step of some command of the
list, at the corresponding index. -/
theorem runList_event_source (env : RunEnv) :
    ∀ (l : List Command) (i : Nat) (st : RState) (e : REvent),
      e ∈ (runList env l i st).2 →
      ∃ j cmd st', l[j]? = some cmd ∧ e ∈ (stepCommand env (i + j) cmd st').events := by
  intro l
  induction l with
  | nil => intro i st e he; simp [runList] at he
  | cons cmd rest ih =>
    intro i st e he
    rw [runList] at he
    rcases hs : stepCommand env i cmd st with ⟨st1, evs⟩ | ⟨r, evs⟩
    · rw [hs] at he
      simp only [] at he
      rcases List.mem_append.mp he with h1 | h1
      · refine ⟨0, cmd, st, by simp, ?_⟩
        rw [Nat.add_zero, hs]
        exact h1
      · obtain ⟨j, cmd', st', hj, hmem⟩ := ih (i + 1) st1 e h1
        refine ⟨j + 1, cmd', st', by simpa using hj, ?_⟩
        rw [show i + (j + 1) = i + 1 + j by omega]
        exact hmem
    · rw [hs] at he
      simp only [] at he
      refine ⟨0, cmd, st, by simp, ?_⟩
      rw [Nat.add_zero, hs]
      exact he

/-- The external command `cat` as a pipeline head: `cat | ...`. -/
def extCat : Command := ⟨["cat"], [], [], .pipe, false⟩

/-- The builtin `cd` as the final, `;`-terminated stage. -/
def builtinCd : Command := ⟨["cd"], [], [], .semi, true⟩

/-- A benign executor environment: everything succeeds, the (single)
fork returns pid 100, registration returns job id 1. -/
def envC1 : RunEnv :=
  ⟨fun _ => true, fun _ => 100, fun _ => .spOk, fun _ => 1, fun _ => 0,
   fun _ => 0, fun _ => 0⟩

/-- C1 counterexample: in the two-stage pipeline `cat | cd ;` the final
stage is a pipeline stage (it has an upstream pipe), yet because it is a
builtin whose control operator is `;` it runs in process: the trace
shows one single fork (the `cat` stage) and an in-process builtin for
stage 1, contradicting "any pipeline stage (including a builtin stage of
a pipeline) runs in a forked child process". -/
theorem c1_counterexample :
    run_command_list envC1 [extCat, builtinCd] =
      (0, [.forked 0 100 0, .registered 0 100 1, .inProcessBuiltin 1]) ∧
    extCat.ctrlOp = .pipe ∧ builtinCd.ctrlOp = .semi ∧ builtinCd.isBuiltin = true := by
  decide

/-- C1 (amended): in every execution of a command list, a command is
forked iff it is not a foreground builtin: every `forked` event belongs
to a command that is not a builtin or not `;`-terminated, and every
`inProcessBuiltin` event belongs to a `;`-terminated builtin — whether
or not the command is a stage of a pipeline. -/
theorem c1_fork_decision_amended (env : RunEnv) (cl : List Command) :
    (∀ (i : Nat) (pid g : Int), REvent.forked i pid g ∈ (run_command_list env cl).2 →
      ∃ cmd, cl[i]? = some cmd ∧ ¬(cmd.isBuiltin = true ∧ cmd.ctrlOp = .semi)) ∧
    (∀ i : Nat, REvent.inProcessBuiltin i ∈ (run_command_list env cl).2 →
      ∃ cmd, cl[i]? = some cmd ∧ cmd.isBuiltin = true ∧ cmd.ctrlOp = .semi) := by
  constructor
  · intro i pid g he
    obtain ⟨j, cmd, st', hj, hmem⟩ := runList_event_source env cl 0 _ _ he
    rw [Nat.zero_add] at hmem
    have hcls := stepCommand_events_classify env j cmd st' _ hmem
    have hidx : i = j := by simpa [REvent.idx] using hcls.1
    subst hidx
    exact ⟨cmd, hj, hcls.2.1 pid g rfl⟩
  · intro i he
    obtain ⟨j, cmd, st', hj, hmem⟩ := runList_event_source env cl 0 _ _ he
    rw [Nat.zero_add] at hmem
    have hcls := stepCommand_events_classify env j cmd st' _ hmem
    have hidx : i = j := by simpa [REvent.idx] using hcls.1
    subst hidx
    exact ⟨cmd, hj, hcls.2.2 rfl⟩

/-- Witness for C1 (amended): applied to the concrete pipeline run. -/
theorem c1_fork_decision_amended_witness :
    ∃ cmd, ([extCat, builtinCd])[1]? = some cmd ∧
      cmd.isBuiltin = true ∧ cmd.ctrlOp = .semi :=
  (c1_fork_decision_amended envC1 [extCat, builtinCd]).2 1 (by decide)

/-! ## C10 — handling of a failed foreground wait -/

/-- Under a failed foreground wait the parent branch halts: with status
other than 127 it returns 0, with status 127 it warns and returns -1. -/
theorem afterSpawn_wait_failure (env : RunEnv) (i : Nat) (cmd : Command)
    (stx : RState) (evs0 : List REvent)
    (hfg : cmd.ctrlOp = .semi) (hwait : env.fgWaitRes i < 0) :
    afterSpawn env i cmd stx (env.forkPid i) evs0 =
      (if env.statusAfterWait i ≠ 127 then
        StepRes.halt 0 (evs0 ++ [REvent.fgWait i stx.pgid (env.fgWaitRes i)])
       else
        StepRes.halt (-1)
          (evs0 ++ [REvent.fgWait i stx.pgid (env.fgWaitRes i)] ++ [.warned i])) := by
  unfold afterSpawn
  rw [if_pos hfg, if_pos hwait]

/-- An external foreground command's step is the after-spawn branch with
only fork/registration events gathered before it. -/
theorem stepCommand_ext_fg (env : RunEnv) (i : Nat) (cmd : Command) (st : RState)
    (hfg : cmd.ctrlOp = .semi) (hext : cmd.isBuiltin = false)
    (hpid : ¬env.forkPid i < 0) (hsp : env.setpgidRes i ≠ .spErrOther)
    (hadd : st.pgid = 0 → ¬env.jobsAdd (env.forkPid i) < 0) :
    ∃ (stx : RState) (evs0 : List REvent),
      stepCommand env i cmd st = afterSpawn env i cmd stx (env.forkPid i) evs0 ∧
      (∀ e ∈ evs0, e.idx = i) := by
  unfold stepCommand
  rw [if_neg (by simp [hfg]), if_neg (by simp [hext]), if_neg hpid]
  cases hspv : env.setpgidRes i with
  | spErrOther => exact absurd hspv hsp
  | spOk =>
    by_cases hz : ({ st with hasPipe := cmd.ctrlOp = .pipe } : RState).pgid = 0
    · rw [if_pos hz, if_neg (hadd hz)]
      refine ⟨_, _, rfl, ?_⟩
      intro e he
      simp at he
      rcases he with rfl | rfl <;> rfl
    · rw [if_neg hz]
      refine ⟨_, _, rfl, ?_⟩
      intro e he
      simp at he
      subst he
      rfl
  | spEacces =>
    by_cases hz : ({ st with hasPipe := cmd.ctrlOp = .pipe } : RState).pgid = 0
    · rw [if_pos hz, if_neg (hadd hz)]
      refine ⟨_, _, rfl, ?_⟩
      intro e he
      simp at he
      rcases he with rfl | rfl <;> rfl
    · rw [if_neg hz]
      refine ⟨_, _, rfl, ?_⟩
      intro e he
      simp at he
      subst he
      rfl

/-- C10 (confirmed): when `wait_on_fg_pgid` fails for a forked
foreground command, `run_command_list` stops processing the remaining
commands (the result does not depend on them); it returns 0 whenever the
shell's status is not 127, and only with status 127 does it print the
warning and return -1.  All emitted events belong to the failing
command. -/
theorem c10_fg_wait_failure (env : RunEnv) (cmd : Command) (rest : List Command)
    (i : Nat) (st : RState)
    (hfg : cmd.ctrlOp = .semi) (hext : cmd.isBuiltin = false)
    (hpid : ¬env.forkPid i < 0) (hsp : env.setpgidRes i ≠ .spErrOther)
    (hadd : st.pgid = 0 → ¬env.jobsAdd (env.forkPid i) < 0)
    (hwait : env.fgWaitRes i < 0) :
    runList env (cmd :: rest) i st = runList env [cmd] i st ∧
    (runList env (cmd :: rest) i st).1 =
      (if env.statusAfterWait i ≠ 127 then 0 else -1) ∧
    (env.statusAfterWait i = 127 →
      REvent.warned i ∈ (runList env (cmd :: rest) i st).2) ∧
    (∀ e ∈ (runList env (cmd :: rest) i st).2, e.idx = i) := by
  obtain ⟨stx, evs0, hsc, hidx0⟩ :=
    stepCommand_ext_fg env i cmd st hfg hext hpid hsp hadd
  have hstep := afterSpawn_wait_failure env i cmd stx evs0 hfg hwait
  by_cases hps : env.statusAfterWait i ≠ 127
  · rw [if_pos hps] at hstep
    have hrun : ∀ l : List Command, runList env (cmd :: l) i st =
        (0, evs0 ++ [REvent.fgWait i stx.pgid (env.fgWaitRes i)]) := by
      intro l
      rw [runList, hsc, hstep]
    refine ⟨(hrun rest).trans (hrun []).symm, ?_, ?_, ?_⟩
    · rw [hrun rest, if_pos hps]
    · intro hc
      exact absurd hc hps
    · intro e he
      rw [hrun rest] at he
      simp only [] at he
      rcases List.mem_append.mp he with h1 | h1
      · exact hidx0 e h1
      · simp at h1
        subst h1
        rfl
  · rw [if_neg hps] at hstep
    have hrun : ∀ l : List Command, runList env (cmd :: l) i st =
        (-1, evs0 ++ [REvent.fgWait i stx.pgid (env.fgWaitRes i)] ++ [.warned i]) := by
      intro l
      rw [runList, hsc, hstep]
    refine ⟨(hrun rest).trans (hrun []).symm, ?_, ?_, ?_⟩
    · rw [hrun rest, if_neg hps]
    · intro _
      rw [hrun rest]
      simp
    · intro e he
      rw [hrun rest] at he
      simp only [] at he
      rcases List.mem_append.mp he with h1 | h1
      · rcases List.mem_append.mp h1 with h2 | h2
        · exact hidx0 e h2
        · simp at h2
          subst h2
          rfl
      · simp at h1
        subst h1
        rfl

/-- Environment in which the (single) foreground wait fails with the
shell status left at 1. -/
def envC10 : RunEnv :=
  ⟨fun _ => true, fun _ => 100, fun _ => .spOk, fun _ => 1, fun _ => -1,
   fun _ => 1, fun _ => 0⟩

/-- The external foreground command `cat ;`. -/
def extCatFg : Command := ⟨["cat"], [], [], .semi, false⟩

/-- Witness for C10: with the wait failing and status 1 (≠ 127), the
run of `cat ; cat ;` stops after the first command and returns 0. -/
theorem c10_fg_wait_failure_witness :
    runList envC10 [extCatFg, extCatFg] 0 ⟨false, 0, -1, 0, 0⟩ =
      runList envC10 [extCatFg] 0 ⟨false, 0, -1, 0, 0⟩ ∧
    (runList envC10 [extCatFg, extCatFg] 0 ⟨false, 0, -1, 0, 0⟩).1 = 0 := by
  have h := c10_fg_wait_failure envC10 extCatFg [extCatFg] 0 ⟨false, 0, -1, 0, 0⟩
    rfl rfl (by decide) (by decide) (fun _ => by decide) (by decide)
  exact ⟨h.1, by rw [h.2.1]; decide⟩

/-! ## C2 — job registration and process-group formation -/

/-- The index of the first stage of the pipeline command `i` belongs to:
walk back while the previous command's operator is `|`. -/
def pipelineStart (cl : List Command) : Nat → Nat
  | 0 => 0
  | i + 1 => if (cl.getD i default).ctrlOp = .pipe then pipelineStart cl i else i + 1

theorem pipelineStart_le (cl : List Command) : ∀ i, pipelineStart cl i ≤ i := by
  intro i
  induction i with
  | zero => exact Nat.le_refl 0
  | succ i ih =>
    rw [pipelineStart]
    split
    · omega
    · omega

/-- The group id `pipeline_data.pgid` holds before command `i` runs:
`0` when `i` starts a new pipeline, otherwise the pid of the pipeline's
first-spawned process. -/
def expectedPgid (env : RunEnv) (cl : List Command) (i : Nat) : Int :=
  if pipelineStart cl i = i then 0 else env.forkPid (pipelineStart cl i)

/-- After a successful spawn with a successful wait, the step continues;
its events extend the gathered ones only with non-registration events,
and the pipeline group id survives exactly for `|` commands. -/
theorem afterSpawn_success (env : RunEnv) (k : Nat) (cmd : Command) (stx : RState)
    (pid : Int) (evs0 : List REvent) (hw : 0 ≤ env.fgWaitRes k) :
    ∃ st' evs, afterSpawn env k cmd stx pid evs0 = .cont st' evs ∧
      (∀ e ∈ evs0, e ∈ evs) ∧
      (∀ e ∈ evs, e ∈ evs0 ∨ ∀ p j, e ≠ .registered k p j) ∧
      st'.pgid = (if cmd.ctrlOp = .pipe then stx.pgid else 0) := by
  unfold afterSpawn
  cases hop : cmd.ctrlOp with
  | semi =>
    rw [if_pos rfl, if_neg (by omega)]
    refine ⟨_, _, rfl, ?_, ?_, by simp⟩
    · intro e he
      exact List.mem_append.mpr (Or.inl he)
    · intro e he
      rcases List.mem_append.mp he with h1 | h1
      · exact Or.inl h1
      · simp at h1
        subst h1
        exact Or.inr (by simp)
  | amp =>
    rw [if_neg (by simp)]
    simp only [reduceCtorEq, if_pos rfl]
    refine ⟨_, _, rfl, ?_, ?_, by simp⟩
    · intro e he
      exact List.mem_append.mpr (Or.inl he)
    · intro e he
      rcases List.mem_append.mp he with h1 | h1
      · exact Or.inl h1
      · simp at h1
        subst h1
        exact Or.inr (by simp)
  | pipe =>
    rw [if_neg (by simp)]
    simp only [reduceCtorEq, if_pos rfl]
    exact ⟨_, _, rfl, fun e he => he, fun e he => Or.inl he, by simp⟩

/-- One all-fork step: the command forks (a `forked` event with the
current group id as the `setpgid` argument), registers exactly when the
group id was 0, and the next state's group id is kept only by `|`
commands. -/
theorem stepCommand_all_fork (env : RunEnv) (k : Nat) (cmd : Command) (st : RState)
    (hnb : ¬(cmd.isBuiltin = true ∧ cmd.ctrlOp = .semi))
    (hpipe : env.pipeOk k = true)
    (hpid : 0 < env.forkPid k)
    (hsp : env.setpgidRes k ≠ .spErrOther)
    (hadd : 0 ≤ env.jobsAdd (env.forkPid k))
    (hwait : 0 ≤ env.fgWaitRes k) :
    ∃ st' evs, stepCommand env k cmd st = .cont st' evs ∧
      REvent.forked k (env.forkPid k) st.pgid ∈ evs ∧
      (st.pgid = 0 →
        REvent.registered k (env.forkPid k) (env.jobsAdd (env.forkPid k)) ∈ evs) ∧
      (st.pgid ≠ 0 → ∀ p j, REvent.registered k p j ∉ evs) ∧
      st'.pgid =
        (if cmd.ctrlOp = .pipe then (if st.pgid = 0 then env.forkPid k else st.pgid)
         else 0) := by
  unfold stepCommand
  rw [if_neg (by simp [hpipe]), if_neg hnb, if_neg (by omega)]
  have hfin : ∀ (stx : RState) (evs0 : List REvent),
      stx.pgid = (if st.pgid = 0 then env.forkPid k else st.pgid) →
      REvent.forked k (env.forkPid k) st.pgid ∈ evs0 →
      (st.pgid = 0 →
        REvent.registered k (env.forkPid k) (env.jobsAdd (env.forkPid k)) ∈ evs0) →
      (st.pgid ≠ 0 → ∀ p j, REvent.registered k p j ∉ evs0) →
      ∃ st' evs, afterSpawn env k cmd stx (env.forkPid k) evs0 = .cont st' evs ∧
        REvent.forked k (env.forkPid k) st.pgid ∈ evs ∧
        (st.pgid = 0 →
          REvent.registered k (env.forkPid k) (env.jobsAdd (env.forkPid k)) ∈ evs) ∧
        (st.pgid ≠ 0 → ∀ p j, REvent.registered k p j ∉ evs) ∧
        st'.pgid =
          (if cmd.ctrlOp = .pipe then (if st.pgid = 0 then env.forkPid k else st.pgid)
           else 0) := by
    intro stx evs0 hstx hf hreg hnreg
    obtain ⟨st', evs, heq, hsub, hclass, hpg⟩ :=
      afterSpawn_success env k cmd stx (env.forkPid k) evs0 hwait
    refine ⟨st', evs, heq, hsub _ hf, fun hz => hsub _ (hreg hz), ?_, by rw [hpg, hstx]⟩
    intro hz p j hmem
    rcases hclass _ hmem with h1 | h1
    · exact hnreg hz p j h1
    · exact h1 p j rfl
  cases hspv : env.setpgidRes k with
  | spErrOther => exact absurd hspv hsp
  | spOk =>
    by_cases hz : ({ st with hasPipe := cmd.ctrlOp = .pipe } : RState).pgid = 0
    · rw [if_pos hz, if_neg (by omega)]
      have hz' : st.pgid = 0 := hz
      exact hfin _ _ (by simp [hz']) (by simp) (fun _ => by simp)
        (fun hc => absurd hz' hc)
    · rw [if_neg hz]
      have hz' : ¬st.pgid = 0 := hz
      exact hfin _ _ (by simp [hz']) (by simp) (fun hc => absurd hc hz')
        (fun _ p j hmem => by
          simp at hmem)
  | spEacces =>
    by_cases hz : ({ st with hasPipe := cmd.ctrlOp = .pipe } : RState).pgid = 0
    · rw [if_pos hz, if_neg (by omega)]
      have hz' : st.pgid = 0 := hz
      exact hfin _ _ (by simp [hz']) (by simp) (fun _ => by simp)
        (fun hc => absurd hz' hc)
    · rw [if_neg hz]
      have hz' : ¬st.pgid = 0 := hz
      exact hfin _ _ (by simp [hz']) (by simp) (fun hc => absurd hc hz')
        (fun _ p j hmem => by
          simp at hmem)

/-- Invariant run of an all-fork command list: from any suffix whose
entry state carries the expected pipeline group id, every later command
forks with the expected `setpgid` group argument, and registration
events appear exactly at pipeline starts. -/
theorem runList_c2_main (env : RunEnv) (cl : List Command)
    (hforkall : ∀ cmd ∈ cl, ¬(cmd.isBuiltin = true ∧ cmd.ctrlOp = .semi))
    (hpipe : ∀ i, env.pipeOk i = true)
    (hpid : ∀ i, 0 < env.forkPid i)
    (hsp : ∀ i, env.setpgidRes i ≠ .spErrOther)
    (hadd : ∀ p : Int, 0 ≤ env.jobsAdd p)
    (hwait : ∀ i, 0 ≤ env.fgWaitRes i) :
    ∀ (l : List Command) (k : Nat) (st : RState),
      l = cl.drop k →
      st.pgid = expectedPgid env cl k →
      ∀ i, k ≤ i → i < cl.length →
        (REvent.forked i (env.forkPid i) (expectedPgid env cl i)
          ∈ (runList env l k st).2) ∧
        (pipelineStart cl i = i →
          REvent.registered i (env.forkPid i) (env.jobsAdd (env.forkPid i))
            ∈ (runList env l k st).2) ∧
        (pipelineStart cl i ≠ i → ∀ p j,
          REvent.registered i p j ∉ (runList env l k st).2) := by
  intro l
  induction l with
  | nil =>
    intro k st hdrop hinv i hki hilen
    exfalso
    have hlen := congrArg List.length hdrop
    simp [List.length_drop] at hlen
    omega
  | cons cmd rest ih =>
    intro k st hdrop hinv i hki hilen
    have hklen : k < cl.length := by
      by_contra hc
      push_neg at hc
      rw [List.drop_eq_nil_of_le hc] at hdrop
      exact List.noConfusion hdrop
    rw [List.drop_eq_getElem_cons hklen] at hdrop
    have hdrop' := hdrop
    injection hdrop' with hcmd hrest
    have hcmdmem : cmd ∈ cl := by
      rw [hcmd]
      exact List.getElem_mem hklen
    obtain ⟨st', evs, hstep, hforkmem, hregmem, hnoreg, hpg⟩ :=
      stepCommand_all_fork env k cmd st (hforkall cmd hcmdmem) (hpipe k) (hpid k)
        (hsp k) (hadd _) (hwait k)
    have hrun : runList env (cmd :: rest) k st =
        ((runList env rest (k + 1) st').1, evs ++ (runList env rest (k + 1) st').2) := by
      rw [runList, hstep]
    have hgetD : cl.getD k default = cmd := by
      rw [List.getD_eq_getElem?_getD, List.getElem?_eq_getElem hklen, Option.getD_some]
      exact hcmd.symm
    have hstart_succ : pipelineStart cl (k + 1) =
        (if cmd.ctrlOp = .pipe then pipelineStart cl k else k + 1) := by
      rw [pipelineStart, hgetD]
    have hinv' : st'.pgid = expectedPgid env cl (k + 1) := by
      by_cases hcp : cmd.ctrlOp = .pipe
      · have hs1 : pipelineStart cl (k + 1) = pipelineStart cl k := by
          rw [hstart_succ, if_pos hcp]
        have hle : pipelineStart cl k ≤ k := pipelineStart_le cl k
        have hrhs : expectedPgid env cl (k + 1) = env.forkPid (pipelineStart cl k) := by
          unfold expectedPgid
          rw [hs1, if_neg (by omega)]
        rw [hrhs, hpg, if_pos hcp, hinv]
        unfold expectedPgid
        by_cases hsk : pipelineStart cl k = k
        · rw [if_pos hsk, if_pos rfl, hsk]
        · rw [if_neg hsk]
          have hfp := hpid (pipelineStart cl k)
          rw [if_neg (by omega)]
      · have hs1 : pipelineStart cl (k + 1) = k + 1 := by
          rw [hstart_succ, if_neg hcp]
        have hrhs : expectedPgid env cl (k + 1) = 0 := by
          unfold expectedPgid
          rw [hs1, if_pos rfl]
        rw [hrhs, hpg, if_neg hcp]
    rw [hrun]
    by_cases hik : i = k
    · subst hik
      refine ⟨?_, ?_, ?_⟩
      · rw [← hinv]
        exact List.mem_append.mpr (Or.inl hforkmem)
      · intro hstart
        have hz : st.pgid = 0 := by
          rw [hinv]
          unfold expectedPgid
          rw [if_pos hstart]
        exact List.mem_append.mpr (Or.inl (hregmem hz))
      · intro hstart p j hmem
        have hz : st.pgid ≠ 0 := by
          rw [hinv]
          unfold expectedPgid
          rw [if_neg hstart]
          have := hpid (pipelineStart cl i)
          omega
        rcases List.mem_append.mp hmem with h1 | h1
        · exact hnoreg hz p j h1
        · obtain ⟨j', cmd', st'', hj', hmem'⟩ :=
            runList_event_source env rest (i + 1) st' _ h1
          have hidx := (stepCommand_events_classify env (i + 1 + j') cmd' st'' _ hmem').1
          simp [REvent.idx] at hidx
          omega
    · have htail := ih (k + 1) st' hrest hinv' i (by omega) hilen
      refine ⟨List.mem_append.mpr (Or.inr htail.1),
        fun hs => List.mem_append.mpr (Or.inr (htail.2.1 hs)), ?_⟩
      intro hstart p j hmem
      rcases List.mem_append.mp hmem with h1 | h1
      · have hmem2 : REvent.registered i p j ∈ (stepCommand env k cmd st).events := by
          rw [hstep]
          exact h1
        have hidx := (stepCommand_events_classify env k cmd st _ hmem2).1
        simp [REvent.idx] at hidx
        omega
      · exact htail.2.2 hstart p j h1

/-- C2 counterexample: in the two-stage pipeline `cat | cd ;` only one
process is ever forked (the `cat` stage) — the final builtin stage runs
in-process and joins no group — so it is false that every pipeline of
length N has exactly N processes sharing its process group. -/
theorem c2_counterexample :
    ((run_command_list envC1 [extCat, builtinCd]).2.countP
      (fun e => match e with | .forked _ _ _ => true | _ => false)) = 1 ∧
    [extCat, builtinCd].length = 2 ∧
    extCat.ctrlOp = .pipe ∧ builtinCd.ctrlOp = .semi := by decide

/-- C2 (amended): in an execution in which every command forks (no
foreground builtin in the list) and the collaborators succeed, each
command `i` forks with `setpgid` group argument 0 exactly when `i`
starts a pipeline — so its group id becomes its own pid — and otherwise
with the pid of the pipeline's first-spawned process; registration with
the job table happens exactly at pipeline starts, in the parent, so
exactly once per pipeline, and the forked stages of a pipeline are
precisely the processes of its group. -/
theorem c2_registration_amended (env : RunEnv) (cl : List Command)
    (hforkall : ∀ cmd ∈ cl, ¬(cmd.isBuiltin = true ∧ cmd.ctrlOp = .semi))
    (hpipe : ∀ i, env.pipeOk i = true)
    (hpid : ∀ i, 0 < env.forkPid i)
    (hsp : ∀ i, env.setpgidRes i ≠ .spErrOther)
    (hadd : ∀ p : Int, 0 ≤ env.jobsAdd p)
    (hwait : ∀ i, 0 ≤ env.fgWaitRes i) :
    ∀ i, i < cl.length →
      (REvent.forked i (env.forkPid i) (expectedPgid env cl i)
        ∈ (run_command_list env cl).2) ∧
      (pipelineStart cl i = i →
        REvent.registered i (env.forkPid i) (env.jobsAdd (env.forkPid i))
          ∈ (run_command_list env cl).2) ∧
      (pipelineStart cl i ≠ i → ∀ p j,
        REvent.registered i p j ∉ (run_command_list env cl).2) :=
  fun i hi =>
    runList_c2_main env cl hforkall hpipe hpid hsp hadd hwait cl 0
      ⟨false, 0, -1, 0, 0⟩ rfl rfl i (Nat.zero_le i) hi

/-- The external command `cat` as a `;`-terminated final stage. -/
def extCatLast : Command := ⟨["cat"], [], [], .semi, false⟩

/-- Witness for C2 (amended): in the all-external pipeline
`cat | cat ;`, stage 1 forks into the group of stage 0's pid and only
stage 0 registers. -/
theorem c2_registration_amended_witness :
    (REvent.forked 1 (envC1.forkPid 1) (expectedPgid envC1 [extCat, extCatLast] 1)
      ∈ (run_command_list envC1 [extCat, extCatLast]).2) ∧
    (pipelineStart [extCat, extCatLast] 1 = 1 →
      REvent.registered 1 (envC1.forkPid 1) (envC1.jobsAdd (envC1.forkPid 1))
        ∈ (run_command_list envC1 [extCat, extCatLast]).2) ∧
    (pipelineStart [extCat, extCatLast] 1 ≠ 1 → ∀ p j,
      REvent.registered 1 p j ∉ (run_command_list envC1 [extCat, extCatLast]).2) :=
  c2_registration_amended envC1 [extCat, extCatLast] (by decide) (fun _ => rfl)
    (fun _ => by simp [envC1]) (fun _ => by simp [envC1]) (fun _ => by simp [envC1])
    (fun _ => by simp [envC1]) 1 (by decide)
